import Mathlib

/-!
Verification development for the `cc-session-to-md` converter.

The definitions below are a shallow embedding of the TypeScript sources:
`src/parsers/SessionParser.ts`, the `MessageProcessor` variant that defers
flushing to the formatter, `ToolResultProcessor`, the `MarkdownFormatter`
(`convertSession` / `processMessage`), the path utilities
(`makeRelativePath` in its current form, which computes a dotted relative
path for targets outside the cwd), and the time utilities
(`isValidTimestamp` / `parseTimestamp`).

JavaScript values that matter to the converter are modelled explicitly:
JSON values as `JVal`, records as `Record`, message content as
`Sum String (List ContentItem)`, JS `Date` results as `Option Int`
(milliseconds; `none` models an Invalid Date), and the generic `new Date(s)`
parser as an explicit function parameter `jsParse`.  JS exceptions (the one
reachable site is `formatBashSummary`'s unguarded `command.startsWith`) are
modelled with `Except`.
-/

set_option maxHeartbeats 1000000
set_option maxRecDepth 100000
set_option linter.unusedVariables false

namespace SessionToMd

/-- JSON-ish values appearing in tool inputs (`input` maps, todos, ...). -/
inductive JVal where
  | s (v : String)
  | n (v : Int)
  | b (v : Bool)
  | null
  | arr (elems : List JVal)
  | obj (fields : List (String × JVal))

mutual

/-- JS template-string conversion (`${v}`): strings stay, numbers print,
objects become "[object Object]", arrays join their elements with commas. -/
def jvalInterp : JVal → String
  | .s v => v
  | .n v => toString v
  | .b v => if v then "true" else "false"
  | .null => "null"
  | .obj _ => "[object Object]"
  | .arr l => String.intercalate "," (jvalInterpList l)

/-- Elementwise `jvalInterp` over a list (helper for array rendering). -/
def jvalInterpList : List JVal → List String
  | [] => []
  | v :: vs => jvalInterp v :: jvalInterpList vs

end

/-- JS truthiness of a `JVal` ("" , 0, false, null are falsy). -/
def jvalTruthy : JVal → Bool
  | .s v => v ≠ ""
  | .n v => v ≠ 0
  | .b v => v
  | .null => false
  | .arr _ => true
  | .obj _ => true

/-- A tool `input` object: ordered key/value pairs. -/
def ToolInput := List (String × JVal)

/-- First-match association lookup (JS object / Map `get`). -/
def assocGet {α : Type} (m : List (String × α)) (k : String) : Option α :=
  (m.find? (fun p => p.1 == k)).map (fun p => p.2)

/-- JS `Map.set` / object assignment: overwrite in place, else append. -/
def assocSet {α : Type} (m : List (String × α)) (k : String) (v : α) :
    List (String × α) :=
  if m.any (fun p => p.1 == k) then
    m.map (fun p => if p.1 == k then (k, v) else p)
  else m ++ [(k, v)]

/-- `input?.command` style access on an optional input object. -/
def inputGet (i : Option ToolInput) (k : String) : Option JVal :=
  i.bind (fun m => assocGet m k)

/-- A content item inside a message's content array (`text`, `tool_use`,
`tool_result`); `content` of a `tool_result` is a string or nested items. -/
inductive ContentItem where
  | mk (type : String) (text : Option String) (id : Option String)
      (name : Option String) (input : Option (List (String × JVal)))
      (tool_use_id : Option String)
      (content : Option (Sum String (List ContentItem)))
      (is_error : Option Bool)

def ContentItem.type : ContentItem → String
  | .mk t _ _ _ _ _ _ _ => t

def ContentItem.text : ContentItem → Option String
  | .mk _ x _ _ _ _ _ _ => x

def ContentItem.id : ContentItem → Option String
  | .mk _ _ x _ _ _ _ _ => x

def ContentItem.name : ContentItem → Option String
  | .mk _ _ _ x _ _ _ _ => x

def ContentItem.input : ContentItem → Option (List (String × JVal))
  | .mk _ _ _ _ x _ _ _ => x

def ContentItem.tool_use_id : ContentItem → Option String
  | .mk _ _ _ _ _ x _ _ => x

def ContentItem.content : ContentItem → Option (Sum String (List ContentItem))
  | .mk _ _ _ _ _ _ x _ => x

def ContentItem.is_error : ContentItem → Option Bool
  | .mk _ _ _ _ _ _ _ x => x

/-- Convenience builder for a `text` content item. -/
def textItem (s : String) : ContentItem :=
  .mk "text" (some s) none none none none none none

/-- Convenience builder for a `tool_use` content item. -/
def toolUseItem (id name : String) (input : List (String × JVal)) : ContentItem :=
  .mk "tool_use" none (some id) (some name) (some input) none none none

/-- Convenience builder for a `tool_result` content item with string content. -/
def toolResultItem (tid : String) (content : String) (isErr : Bool) : ContentItem :=
  .mk "tool_result" none none none none (some tid) (some (.inl content))
    (some isErr)

/-- One hunk of a structured patch (`StructuredPatch` in types/index.ts). -/
structure Hunk where
  oldStart : Int := 1
  oldLines : Int := 1
  newStart : Int := 1
  newLines : Int := 1
  lines : List String := []

/-- The `toolUseResult` metadata blob carried by user records. -/
structure ToolUseResult where
  structuredPatch : Option (List Hunk) := none
  filePath : Option String := none

/-- A message payload (`message` field of a record). -/
structure RMessage where
  role : String := ""
  content : Option (Sum String (List ContentItem)) := none

/-- One parsed input line (`MessageData` in types/index.ts). -/
structure Record where
  type : String
  sessionId : Option String := none
  uuid : Option String := none
  leafUuid : Option String := none
  timestamp : Option String := none
  cwd : Option String := none
  isMeta : Bool := false
  isApiErrorMessage : Bool := false
  message : Option RMessage := none
  summary : Option String := none
  toolUseResult : Option ToolUseResult := none

/-- The processor's mutable `ProcessingContext`. -/
structure Ctx where
  currentCwd : Option String := none
  pendingTools : List ContentItem := []
  pendingToolResults : List ContentItem := []
  toolCallMap : List (String × ContentItem) := []
  currentToolUseResult : Option ToolUseResult := none

/-- `resetContext()` / the constructor's fresh context. -/
def initialCtx : Ctx := {}

/-- A session as built by `SessionParser`.  JS `Date` fields are modelled
as `Option Int` (milliseconds; `none` is an Invalid Date); both date fields
start at `new Date(0)`. -/
structure Session where
  id : String := ""
  messages : List Record := []
  summary : Option String := none
  generatedSummary : Option String := none
  firstTimestamp : Option String := none
  lastTimestamp : Option String := none
  firstCreated : Option Int := some 0
  lastModified : Option Int := some 0
  messageCount : Nat := 0

/-! ## Generic string helpers (JS string primitives) -/

/-- Split a character list on a delimiter (JS `String.prototype.split` with a
single-character separator); `[] ↦ [[]]` like `''.split(c) = ['']`. -/
def splitOnChar (delim : Char) : List Char → List (List Char)
  | [] => [[]]
  | c :: cs =>
    let r := splitOnChar delim cs
    if c = delim then [] :: r
    else
      match r with
      | [] => [[c]]
      | h :: t => (c :: h) :: t

/-- Join character-list segments with a delimiter (inverse of `splitOnChar`). -/
def joinChar (delim : Char) : List (List Char) → List Char
  | [] => []
  | [x] => x
  | x :: xs => x ++ delim :: joinChar delim xs

/-- JS `s.split('\n')`. -/
def splitNl (s : String) : List String :=
  (splitOnChar '\n' s.data).map String.mk

/-- JS `arr.join('\n')` over strings. -/
def joinNl (l : List String) : String :=
  String.mk (joinChar '\n' (l.map String.data))

/-- JS `String.prototype.startsWith`. -/
def startsWithJs (s pre : String) : Bool :=
  pre.data.isPrefixOf s.data

/-- ASCII-lowercase a string (JS `toLowerCase` on the characters we meet). -/
def toLowerJs (s : String) : String :=
  String.mk (s.data.map Char.toLower)

/-- Strip leading and trailing whitespace from a character list. -/
def trimChars (l : List Char) : List Char :=
  ((l.dropWhile Char.isWhitespace).reverse.dropWhile Char.isWhitespace).reverse

/-- JS `String.prototype.trim`. -/
def jsTrim (s : String) : String :=
  String.mk (trimChars s.data)

/-! ## Path utilities

Embedding of the current `makeRelativePath` (the variant that also computes
a dotted relative path for targets outside the cwd) together with the Node
`path` (posix) primitives it calls: `resolve`, `relative`, `join`.
Node's segment machinery is modelled explicitly: normalization is a fold
over the `/`-separated segments, where `""` and `"."` are skipped and `".."`
pops (absolute mode) or is accumulated in a leading-dots counter (relative
mode).  `process.cwd()` is passed explicitly as `procCwd`. -/

/-- Split a path string on `/` (Node's segment view). -/
def splitSlash (p : String) : List String :=
  (splitOnChar '/' p.data).map String.mk

/-- Join path segments with `/`. -/
def joinSlash (l : List String) : String :=
  String.mk (joinChar '/' (l.map String.data))

/-- Node `path.isAbsolute` for posix: first character is `/`. -/
def isAbs (p : String) : Bool :=
  match p.data with
  | [] => false
  | c :: _ => c = '/'

/-- One step of absolute-mode normalization (`allowAboveRoot = false`):
skip `""`/`"."`, `".."` pops (no-op at the root), others are pushed. -/
def absStep (stack : List String) (seg : String) : List String :=
  if seg = "" ∨ seg = "." then stack
  else if seg = ".." then stack.dropLast
  else stack ++ [seg]

/-- Absolute-mode normalization of a segment list starting from `stack`. -/
def absProcess (stack : List String) (segs : List String) : List String :=
  segs.foldl absStep stack

/-- One step of relative-mode normalization (`allowAboveRoot = true`): like
`absStep` but `".."` on an empty stack accumulates a leading-dots count. -/
def relStep : Nat × List String → String → Nat × List String
  | (d, stk), seg =>
    if seg = "" ∨ seg = "." then (d, stk)
    else if seg = ".." then
      match stk with
      | [] => (d + 1, [])
      | _ :: _ => (d, stk.dropLast)
    else (d, stk ++ [seg])

/-- Relative-mode normalization of a segment list. -/
def relProcess (st : Nat × List String) (segs : List String) : Nat × List String :=
  segs.foldl relStep st

/-- Render an absolute segment stack as a path string (`"/"` when empty). -/
def renderAbs (stack : List String) : String :=
  String.mk ('/' :: joinChar '/' (stack.map String.data))

/-- Render a relative normalization result; Node returns `"."` when empty. -/
def renderRel (d : Nat) (stack : List String) : String :=
  let segs := List.replicate d ".." ++ stack
  match segs with
  | [] => "."
  | _ :: _ => joinSlash segs

/-- Node posix `path.normalize` (trailing-slash preservation is not modelled;
no call site below produces a trailing slash). -/
def normalizePathJs (p : String) : String :=
  if isAbs p then renderAbs (absProcess [] (splitSlash p))
  else
    let r := relProcess (0, []) (splitSlash p)
    renderRel r.1 r.2

/-- Node posix `path.resolve(p)` with one argument, as a segment stack:
absolute paths are normalized, relative ones are resolved against
`process.cwd()` (the `procCwd` parameter). -/
def resolveSegs (procCwd : String) (p : String) : List String :=
  if isAbs p then absProcess [] (splitSlash p)
  else absProcess [] (splitSlash procCwd ++ splitSlash p)

/-- Node posix `path.resolve(p)` as a string. -/
def resolveStr (procCwd : String) (p : String) : String :=
  renderAbs (resolveSegs procCwd p)

/-- Length of the common leading run of two segment lists. -/
def commonLen : List String → List String → Nat
  | a :: as, b :: bs => if a = b then commonLen as bs + 1 else 0
  | _, _ => 0

/-- Node posix `path.relative` on resolved segment lists: drop the common
lead, go up with `".."` for what remains of `from`, then down into `to`. -/
def relativeSegs (f t : List String) : List String :=
  let c := commonLen f t
  List.replicate (f.length - c) ".." ++ t.drop c

/-- Node posix `path.relative(from, to)` (resolves both sides first). -/
def pathRelative (procCwd f t : String) : String :=
  joinSlash (relativeSegs (resolveSegs procCwd f) (resolveSegs procCwd t))

/-- Node posix `path.join(a, b)`: drop empty arguments, join with `/`,
normalize (empty join yields `"."` via `normalize("")`). -/
def joinPaths2 (a b : String) : String :=
  normalizePathJs (joinSlash (([a, b].filter (fun x => x ≠ ""))))

/-- `makeRelativePath(filePath, currentCwd)` — current variant (utils/paths):
empty/missing path returns `""`; missing cwd falls back to `process.cwd()`;
the path and cwd are resolved; whether or not the resolved path starts with
the resolved cwd, the relative path from cwd to path is returned (with `"."`
substituted for an empty result in the prefix case).  The source's
backslash-to-slash replacement is the identity in this posix model, and the
surrounding try/catch is dead for string inputs (no path call throws). -/
def makeRelativePath (procCwd : String) (filePath : Option String)
    (currentCwd : Option String) : String :=
  match filePath with
  | none => ""
  | some fp =>
    if fp = "" then ""
    else
      let cwd :=
        match currentCwd with
        | some c => if c = "" then procCwd else c
        | none => procCwd
      let normalizedPath := resolveStr procCwd fp
      let normalizedCwd := resolveStr procCwd cwd
      let rel := pathRelative procCwd normalizedCwd normalizedPath
      if startsWithJs normalizedPath normalizedCwd then
        (if rel = "" then "." else rel)
      else rel

/-! ## Regex building blocks

The handful of regular expressions in `types/constants.ts` are compiled by
hand into explicit character-list matchers. -/

/-- Consume exactly `n` characters satisfying `p`. -/
def eatCount (p : Char → Bool) : Nat → List Char → Option (List Char)
  | 0, cs => some cs
  | n + 1, c :: cs => if p c then eatCount p n cs else none
  | _ + 1, [] => none

/-- Consume one specific character. -/
def eatChar (c : Char) : List Char → Option (List Char)
  | x :: rest => if x = c then some rest else none
  | [] => none

/-- Consume a literal string. -/
def eatLit (lit : String) (cs : List Char) : Option (List Char) :=
  if lit.data.isPrefixOf cs then some (cs.drop lit.data.length) else none

/-- ASCII hex digit (`[a-f0-9]` with the `i` flag). -/
def isHexDigit (c : Char) : Bool :=
  c.isDigit ∨ ('a' ≤ c ∧ c ≤ 'f') ∨ ('A' ≤ c ∧ c ≤ 'F')

/-- `TIMESTAMP_REGEX`: `^\d{4}-\d{2}-\d{2}T\d{2}:\d{2}:\d{2}` (prefix). -/
def matchIsoStart (s : String) : Bool :=
  (do
    let r ← eatCount Char.isDigit 4 s.data
    let r ← eatChar '-' r
    let r ← eatCount Char.isDigit 2 r
    let r ← eatChar '-' r
    let r ← eatCount Char.isDigit 2 r
    let r ← eatChar 'T' r
    let r ← eatCount Char.isDigit 2 r
    let r ← eatChar ':' r
    let r ← eatCount Char.isDigit 2 r
    let r ← eatChar ':' r
    let _ ← eatCount Char.isDigit 2 r
    pure ()).isSome

/-- `DATE_REGEX`: `^\d{4}-\d{2}-\d{2}` (prefix). -/
def matchDateStart (s : String) : Bool :=
  (do
    let r ← eatCount Char.isDigit 4 s.data
    let r ← eatChar '-' r
    let r ← eatCount Char.isDigit 2 r
    let r ← eatChar '-' r
    let _ ← eatCount Char.isDigit 2 r
    pure ()).isSome

/-- `UNIX_TIMESTAMP_REGEX`: `^\d{10}$`. -/
def matchDigits10 (s : String) : Bool :=
  s.data.length = 10 ∧ s.data.all Char.isDigit

/-- `UNIX_TIMESTAMP_MS_REGEX`: `^\d{13}$`. -/
def matchDigits13 (s : String) : Bool :=
  s.data.length = 13 ∧ s.data.all Char.isDigit

/-- `UUID_REGEX`: `^[a-f0-9]{8}-(…){4}-(…){4}-(…){4}-(…){12}$` (with `i`). -/
def matchUuid (s : String) : Bool :=
  (do
    let r ← eatCount isHexDigit 8 s.data
    let r ← eatChar '-' r
    let r ← eatCount isHexDigit 4 r
    let r ← eatChar '-' r
    let r ← eatCount isHexDigit 4 r
    let r ← eatChar '-' r
    let r ← eatCount isHexDigit 4 r
    let r ← eatChar '-' r
    let r ← eatCount isHexDigit 12 r
    if r.isEmpty then pure () else none).isSome

/-! ## Time utilities (utils/time.ts)

JS `Date` values are modelled as `Option Int` — milliseconds since the
epoch, with `none` for an Invalid Date (`getTime()` is `NaN`).  The generic
parser `new Date(string)` is an explicit parameter `jsParse`; the regex
branches are compiled from `TIME_FORMATS`. -/

/-- `parseInt(s, 10)` on an all-digits string. -/
def parseIntDec (s : String) : Int :=
  Int.ofNat ((s.toNat?).getD 0)

/-- `isValidTimestamp`: non-blank, not a UUID, and matched by the ISO
prefix, bare date, 10/13-digit, or generic-date-parser cases. -/
def isValidTimestamp (jsParse : String → Option Int) (s : String) : Bool :=
  if jsTrim s = "" then false
  else if matchUuid s then false
  else if matchIsoStart s then true
  else if matchDateStart s then true
  else if matchDigits10 s ∨ matchDigits13 s then true
  else (jsParse s).isSome

/-- `parseTimestamp`: dispatch on the same shapes; 10 digits are Unix
seconds, 13 digits Unix milliseconds; the final fallback maps a failed
generic parse to the epoch (`new Date(0)`).  The ISO/date branches return
`new Date(s)` unchecked, so they can produce an Invalid Date (`none`). -/
def parseTimestamp (jsParse : String → Option Int) (s : String) : Option Int :=
  if jsTrim s = "" then some 0
  else if matchIsoStart s then jsParse s
  else if matchDateStart s then jsParse s
  else if matchDigits10 s then some (parseIntDec s * 1000)
  else if matchDigits13 s then some (parseIntDec s)
  else
    match jsParse s with
    | none => some 0
    | some v => some v

/-- `cleanSummary`: collapse whitespace runs to single spaces, trim, and
drop trailing periods. -/
def cleanSummary (text : String) : String :=
  if text = "" then text
  else
    let words := (text.data.splitOnP Char.isWhitespace).filter (fun w => ¬ w.isEmpty)
    let cleaned := joinChar ' ' words
    String.mk (cleaned.reverse.dropWhile (fun c => c = '.')).reverse

/-! ## Language detection (utils/language.ts) and content patterns -/

/-- `LANGUAGE_BY_EXTENSION` from types/constants.ts. -/
def LANGUAGE_BY_EXTENSION : List (String × String) :=
  [("js", "javascript"), ("jsx", "javascript"), ("ts", "typescript"),
   ("tsx", "typescript"), ("rb", "ruby"), ("ruby", "ruby"), ("py", "python"),
   ("python", "python"), ("cpp", "cpp"), ("cc", "cpp"), ("cxx", "cpp"),
   ("c++", "cpp"), ("hpp", "cpp"), ("h", "cpp"), ("c", "c"), ("java", "java"),
   ("go", "go"), ("rs", "rust"), ("php", "php"), ("sh", "bash"),
   ("bash", "bash"), ("sql", "sql"), ("json", "json"), ("yaml", "yaml"),
   ("yml", "yaml"), ("xml", "xml"), ("html", "html"), ("css", "css"),
   ("md", "markdown"), ("markdown", "markdown")]

/-- `SPECIAL_FILE_LANGUAGES` from types/constants.ts. -/
def SPECIAL_FILE_LANGUAGES : List (String × String) :=
  [("CMakeLists.txt", "cmake"), ("Makefile", "makefile"),
   ("Dockerfile", "dockerfile"), ("docker-compose.yml", "yaml"),
   ("docker-compose.yaml", "yaml"), (".gitignore", "gitignore"),
   (".env", "dotenv"), ("package.json", "json"), ("tsconfig.json", "json"),
   ("cargo.toml", "toml"), ("pyproject.toml", "toml")]

/-- Node posix `path.basename` (for the inputs met here: the last nonempty
`/`-segment, `""` when there is none). -/
def basenameJs (p : String) : String :=
  (((splitSlash p).filter (fun s => s ≠ "")).getLast?).getD ""

/-- Node posix `path.extname`: from the last dot of the basename, unless
that dot is its first character. -/
def extnameJs (p : String) : String :=
  let b := (basenameJs p).data
  let rev := b.reverse
  if rev.contains '.' then
    let afterDot := rev.takeWhile (fun c => c ≠ '.')
    let dotPos := b.length - afterDot.length - 1
    if dotPos = 0 then "" else String.mk ('.' :: afterDot.reverse)
  else ""

/-- `detectLanguageFromPath`: special basenames first, then the
lowercased extension (without the dot). -/
def detectLanguageFromPath (filePath : String) : String :=
  if filePath = "" then ""
  else
    match assocGet SPECIAL_FILE_LANGUAGES (basenameJs filePath) with
    | some lang => lang
    | none =>
      let ext := toLowerJs (String.mk ((extnameJs filePath).data.drop 1))
      (assocGet LANGUAGE_BY_EXTENSION ext).getD ""

/-- Leading-whitespace skip (`^\s*` anchored at the start). -/
def dropWs (cs : List Char) : List Char :=
  cs.dropWhile Char.isWhitespace

/-- `/^\s*\d+→/` — a line-number marker at the start of the content. -/
def hasLineNumbers (s : String) : Bool :=
  let r := dropWs s.data
  let ds := r.takeWhile Char.isDigit
  ¬ ds.isEmpty ∧ (r.drop ds.length).head? = some '→'

/-- `stripLineNumbers`: per line, remove a leading `\s*\d+→` marker. -/
def stripLineNumberLine (l : String) : String :=
  let r := dropWs l.data
  let ds := r.takeWhile Char.isDigit
  if ¬ ds.isEmpty ∧ (r.drop ds.length).head? = some '→' then
    String.mk (r.drop (ds.length + 1))
  else l

/-- `MessageWrapper.stripLineNumbers` over the whole content. -/
def stripLineNumbers (s : String) : String :=
  joinNl ((splitNl s).map stripLineNumberLine)

/-- `/^Found \d+ files/`. -/
def matchFoundFiles (s : String) : Bool :=
  (do
    let r ← eatLit "Found " s.data
    let ds := r.takeWhile Char.isDigit
    if ds.isEmpty then none
    else eatLit " files" (r.drop ds.length)).isSome

/-- `/^\/.*\..*$/` (no `m` flag, so `$` is the end of the whole string and
`.` excludes newlines): a single-line string starting with `/` and
containing a later dot. -/
def matchBarePath (s : String) : Bool :=
  match s.data with
  | '/' :: rest => ¬ s.data.contains '\n' ∧ rest.contains '.'
  | _ => false

/-- `/^\s*(import|export|function|const|let|var|class|interface|type)/`. -/
def matchImportStart (s : String) : Bool :=
  ["import", "export", "function", "const", "let", "var", "class",
   "interface", "type"].any (fun k => k.data.isPrefixOf (dropWs s.data))

/-- `CONTENT_PATTERNS.CODE_CONTENT ∨ IMPORT_STATEMENT`
(`ToolResultProcessor.isCodeContent`). -/
def isCodeContent (s : String) : Bool :=
  matchFoundFiles s ∨ matchBarePath s ∨ matchImportStart s

/-- Substring test: `needle` occurs somewhere inside `hay`
(JS `String.prototype.includes`, used via an anchored `.*needle` regex). -/
def containsSub (hay needle : List Char) : Bool :=
  match hay with
  | [] => needle.isPrefixOf []
  | _ :: rest => needle.isPrefixOf hay ∨ containsSub rest needle

/-- `/^(.*has been updated|.*created successfully|.*deleted successfully)/`:
the needle must appear within the first line. -/
def matchSuccessMessage (s : String) : Bool :=
  let firstLine := s.data.takeWhile (fun c => c ≠ '\n')
  ["has been updated", "created successfully", "deleted successfully"].any
    (fun k => containsSub firstLine k.data)

/-- `/^(Tool ran without output|Command completed)/`. -/
def matchCommandOutput (s : String) : Bool :=
  startsWithJs s "Tool ran without output" ∨ startsWithJs s "Command completed"

/-- `/^Received \d+/`. -/
def matchReceived (s : String) : Bool :=
  (do
    let r ← eatLit "Received " s.data
    if (r.takeWhile Char.isDigit).isEmpty then none else some ()).isSome

/-- Does some line, after leading whitespace, start with one of the
keywords?  (Models an `/^\s*(k1|k2|…)/m` pattern.) -/
def anyLineStartsKw (ks : List String) (s : String) : Bool :=
  (splitNl s).any (fun l => ks.any (fun k => k.data.isPrefixOf (dropWs l.data)))

/-- `detectCodeLanguage`: the ranked heuristic pattern list from
utils/language.ts (each `/m` pattern modelled as a per-line check). -/
def detectCodeLanguage (content : String) : String :=
  if content = "" then ""
  else if matchImportStart content then "typescript"
  else if anyLineStartsKw ["def", "class", "import", "from", "if __name__"] content then "python"
  else if anyLineStartsKw ["public", "private", "protected", "class", "interface", "package"] content then "java"
  else if anyLineStartsKw ["#include", "int main", "using namespace"] content then "cpp"
  else if anyLineStartsKw ["func", "package", "import", "var", "const"] content then "go"
  else if anyLineStartsKw ["fn", "let", "mut", "use", "impl", "struct"] content then "rust"
  else if anyLineStartsKw ["class", "def", "module", "require", "include"] content then "ruby"
  else if anyLineStartsKw ["<?php", "namespace", "use", "class", "function"] content then "php"
  else if (splitNl content).any (fun l =>
      ["select", "insert", "update", "delete", "create", "alter", "drop"].any
        (fun k => k.data.isPrefixOf (dropWs (toLowerJs l).data))) then "sql"
  else if ((dropWs content.data).head? = some '\x7b' ∨ (dropWs content.data).head? = some '[')
      ∧ (content.data.getLast? = some '\x7d' ∨ content.data.getLast? = some ']') then "json"
  else if (splitNl content).any (fun l =>
      let r := dropWs l.data
      "---".data.isPrefixOf r ||
        (match r with
         | c :: rest =>
           (c.isAlpha || c = '_') &&
             (((rest.dropWhile (fun x => x.isAlphanum || x = '_')).dropWhile
                 Char.isWhitespace).head? == some ':')
         | [] => false)) then "yaml"
  else if (splitNl content).any (fun l =>
      let r := dropWs l.data
      (match r with
       | '<' :: rest =>
         let body := rest.takeWhile (fun c => c ≠ '>')
         (¬ body.isEmpty) && ((rest.drop body.length).head? == some '>')
       | _ => false) || "<!DOCTYPE".data.isPrefixOf r) then "html"
  else if (splitNl content).any (fun l =>
      let r := dropWs l.data
      match r with
      | c :: c2 :: rest =>
        (c = '.' || c = '#') && (c2.isAlpha || c2 = '_') &&
          (((rest.dropWhile (fun x => x.isAlphanum || x = '_' || x = '-')).dropWhile
              Char.isWhitespace).head? == some '\x7b')
      | _ => false) then "css"
  else if anyLineStartsKw ["#!/bin/bash", "#!/bin/sh"] content then "bash"
  else ""

/-! ## MessageWrapper (parsers/MessageWrapper.ts) -/

/-- The wrapper's `content`: `message.content || ''` (missing message or
missing/null content become the empty string). -/
def recContent (r : Record) : Sum String (List ContentItem) :=
  match r.message with
  | none => .inl ""
  | some m =>
    match m.content with
    | none => .inl ""
    | some (.inl s) => .inl s
    | some (.inr l) => .inr l

/-- `isContentArray`. -/
def isContentArray (r : Record) : Bool :=
  match recContent r with
  | .inr _ => true
  | .inl _ => false

/-- `getTextContent`: string content as-is, else the `text` items joined. -/
def getTextContent (r : Record) : String :=
  match recContent r with
  | .inl s => s
  | .inr l => joinNl ((l.filter (fun i => i.type == "text")).map (fun i => i.text.getD ""))

/-- `getToolResults`. -/
def getToolResults (r : Record) : List ContentItem :=
  match recContent r with
  | .inl _ => []
  | .inr l => l.filter (fun i => i.type == "tool_result")

/-- `getToolUses`. -/
def getToolUses (r : Record) : List ContentItem :=
  match recContent r with
  | .inl _ => []
  | .inr l => l.filter (fun i => i.type == "tool_use")

/-- `getRegularContent` (everything but tool results). -/
def getRegularContent (r : Record) : List ContentItem :=
  match recContent r with
  | .inl _ => []
  | .inr l => l.filter (fun i => i.type ≠ "tool_result")

/-- `isCaveatMessage`: meta record whose string content, or some `text`
item, starts with `Caveat:`. -/
def isCaveatMessage (r : Record) : Bool :=
  r.isMeta &&
    (match recContent r with
     | .inl s => startsWithJs s "Caveat:"
     | .inr l =>
       (l.filter (fun i => i.type == "text")).any (fun i =>
         match i.text with
         | some t => startsWithJs t "Caveat:"
         | none => false))

/-- `isApiError`. -/
def isApiError (r : Record) : Bool :=
  r.isApiErrorMessage

/-- `isEmptyCommandOutput`: the string content contains the literal empty
`<local-command-stdout></local-command-stdout>` tag pair. -/
def isEmptyCommandOutput (r : Record) : Bool :=
  match recContent r with
  | .inl s => containsSub s.data "<local-command-stdout></local-command-stdout>".data
  | .inr _ => false

/-- `isInterruptionMessage`: string content strictly equal to the sentinel
(array content never compares equal). -/
def isInterruptionMessage (r : Record) : Bool :=
  match recContent r with
  | .inl s => s == "[Request interrupted by user for tool use]"
  | .inr _ => false

/-- Search for `<command-name>([^<]+)</command-name>` and return the
capture.  Since `[^<]+` cannot contain `<`, a match at a position succeeds
exactly when the run up to the next `<` is nonempty and is followed by the
closing tag. -/
def findCommandName : List Char → Option String
  | [] => none
  | c :: t =>
    let cs := c :: t
    if "<command-name>".data.isPrefixOf cs then
      let rest := cs.drop 14
      let run := rest.takeWhile (fun x => x ≠ '<')
      if ¬ run.isEmpty ∧ "</command-name>".data.isPrefixOf (rest.drop run.length) then
        some (String.mk run)
      else findCommandName t
    else findCommandName t

/-- Search for `<command-args>([^<]*)</command-args>` (capture may be
empty). -/
def findCommandArgs : List Char → Option String
  | [] => none
  | c :: t =>
    let cs := c :: t
    if "<command-args>".data.isPrefixOf cs then
      let rest := cs.drop 14
      let run := rest.takeWhile (fun x => x ≠ '<')
      if "</command-args>".data.isPrefixOf (rest.drop run.length) then
        some (String.mk run)
      else findCommandArgs t
    else findCommandArgs t

/-- `extractCommand`: name capture plus args capture (args default `""`). -/
def extractCommand (r : Record) : Option (String × String) :=
  match recContent r with
  | .inr _ => none
  | .inl s =>
    match findCommandName s.data with
    | none => none
    | some name => some (name, (findCommandArgs s.data).getD "")

/-- JSON escaping for the `JSON.stringify` fallback (the common escapes;
exotic control characters are not modelled). -/
def jsonEscape (s : String) : String :=
  String.mk (s.data.flatMap (fun c =>
    if c = '"' then ['\\', '"']
    else if c = '\\' then ['\\', '\\']
    else if c = '\n' then ['\\', 'n']
    else [c]))

mutual

/-- `JSON.stringify` of a `JVal`. -/
def jsonOfJVal : JVal → String
  | .s v => "\"" ++ jsonEscape v ++ "\""
  | .n v => toString v
  | .b v => if v then "true" else "false"
  | .null => "null"
  | .arr l => "[" ++ String.intercalate "," (jsonOfJValList l) ++ "]"
  | .obj fs => "\x7b" ++ String.intercalate "," (jsonOfFields fs) ++ "\x7d"

/-- Elementwise serialization of array members. -/
def jsonOfJValList : List JVal → List String
  | [] => []
  | v :: vs => jsonOfJVal v :: jsonOfJValList vs

/-- Serialization of object fields. -/
def jsonOfFields : List (String × JVal) → List String
  | [] => []
  | (k, v) :: fs => ("\"" ++ jsonEscape k ++ "\":" ++ jsonOfJVal v) :: jsonOfFields fs

end

mutual

/-- `JSON.stringify` of a content item: the populated (non-`undefined`)
fields in declaration order. -/
def jsonOfItem : ContentItem → String
  | .mk t x id n inp tid c e =>
    let fields :=
      ["\"type\":\"" ++ jsonEscape t ++ "\""] ++
      (match x with | some v => ["\"text\":\"" ++ jsonEscape v ++ "\""] | none => []) ++
      (match id with | some v => ["\"id\":\"" ++ jsonEscape v ++ "\""] | none => []) ++
      (match n with | some v => ["\"name\":\"" ++ jsonEscape v ++ "\""] | none => []) ++
      (match inp with
       | some m => ["\"input\":" ++ jsonOfJVal (.obj m)]
       | none => []) ++
      (match tid with | some v => ["\"tool_use_id\":\"" ++ jsonEscape v ++ "\""] | none => []) ++
      (match c with
       | some (.inl s) => ["\"content\":\"" ++ jsonEscape s ++ "\""]
       | some (.inr l) => ["\"content\":[" ++ String.intercalate "," (jsonOfItemList l) ++ "]"]
       | none => []) ++
      (match e with
       | some b => ["\"is_error\":" ++ (if b then "true" else "false")]
       | none => [])
    "\x7b" ++ String.intercalate "," fields ++ "\x7d"

/-- Elementwise serialization of nested content items. -/
def jsonOfItemList : List ContentItem → List String
  | [] => []
  | i :: is => jsonOfItem i :: jsonOfItemList is

end

mutual

/-- `extractTextFromContentItem`: `text` items yield their text, string
content is returned, nested item lists recurse and join, and anything else
falls back to `JSON.stringify`. -/
def extractTextFromContentItem : ContentItem → String
  | .mk t x id n inp tid c e =>
    if t = "text" then x.getD ""
    else
      match c with
      | some (.inl s) => s
      | some (.inr l) => joinNl (extractTextList l)
      | none => jsonOfItem (.mk t x id n inp tid none e)

/-- Elementwise `extractTextFromContentItem`. -/
def extractTextList : List ContentItem → List String
  | [] => []
  | i :: is => extractTextFromContentItem i :: extractTextList is

end

/-! ## ToolResultProcessor (processors/ToolResultProcessor.ts)

The only JS exception reachable from string-typed inputs is
`formatBashSummary`'s unguarded `command.startsWith` (the `input` object is
accessed with `?.` but the `command` value is not checked); fallible paths
return `Except String`. -/

/-- `toolUseId ? this.context.toolCallMap[toolUseId] : undefined`. -/
def lookupToolCall (ctx : Ctx) (tid : Option String) : Option ContentItem :=
  match tid with
  | none => none
  | some t => if t = "" then none else assocGet ctx.toolCallMap t

/-- `formatToolResult`'s content extraction: an array keeps its `text`
items joined by newlines, otherwise `content as string || ''`. -/
def extractResultContent (tr : ContentItem) : String :=
  match tr.content with
  | some (.inr items) =>
    joinNl ((items.filter (fun i => i.type == "text")).map (fun i => i.text.getD ""))
  | some (.inl s) => s
  | none => ""

/-- Interpolation of a possibly-missing value (`${v}` shows `undefined`). -/
def jvalInterpU : Option JVal → String
  | none => "undefined"
  | some j => jvalInterp j

/-- A JS value passed as `makeRelativePath`'s first argument: falsy values
hit the `!filePath` guard (yielding `""`), others are `String()`-converted. -/
def jvalToPathArg : Option JVal → Option String
  | none => none
  | some j => if jvalTruthy j then some (jvalInterp j) else none

/-- `/^(ls|LS)(\s|$)/`. -/
def matchLsStart (c : String) : Bool :=
  (startsWithJs c "ls" ∨ startsWithJs c "LS") &&
    (match c.data.drop 2 with
     | [] => true
     | ch :: _ => ch.isWhitespace)

/-- `shouldTruncateLS`: an `LS` tool, or `Bash` whose command matches the
`ls` pattern.  (A non-string `command` would throw in JS, but the summary
for such a `Bash` call throws first, so that path is unreachable here.) -/
def shouldTruncateLS (toolCall : Option ContentItem) : Bool :=
  match toolCall with
  | none => false
  | some tc =>
    tc.name == some "LS" ||
      (tc.name == some "Bash" &&
        (match inputGet tc.input "command" with
         | some (.s c) => matchLsStart c
         | _ => false))

/-- `formatTruncatedContent`: fenced block; beyond 50 lines only the first
50 are kept, followed by a `\n... (<n> more lines)` marker element. -/
def formatTruncatedContent (content : String) : List String :=
  let lines := splitNl content
  if lines.length > 50 then
    ["```"] ++ lines.take 50 ++
      ["\n... (" ++ toString (lines.length - 50) ++ " more lines)", "```"]
  else ["```", content, "```"]

/-- `formatFileContent`: strip line-number markers, fence with the language
inferred from the originating tool's `file_path`. -/
def formatFileContent (content : String)
    (toolCall : Option ContentItem) : List String :=
  let language :=
    match toolCall.bind (fun tc => inputGet tc.input "file_path") with
    | some j => if jvalTruthy j then detectLanguageFromPath (jvalInterp j) else ""
    | none => ""
  ["```" ++ language, stripLineNumbers content, "```"]

/-- `formatCodeContent`. -/
def formatCodeContent (content : String) : List String :=
  ["```" ++ detectCodeLanguage content, content, "```"]

/-- `formatPlainContent`. -/
def formatPlainContent (content : String) : List String :=
  ["```", content, "```"]

/-- `formatToolContent` (the `Array.isArray(content)` branch of the source
is statically dead — `content` was stringified by `formatToolResult`). -/
def formatToolContent (procCwd : String) (ctx : Ctx) (content : String)
    (tid : Option String) : List String :=
  let toolCall := lookupToolCall ctx tid
  if shouldTruncateLS toolCall then formatTruncatedContent content
  else if hasLineNumbers content then formatFileContent content toolCall
  else if isCodeContent content then formatCodeContent content
  else formatPlainContent content

/-- `formatBashSummary`: `input?.command` is not guarded before
`.startsWith`, so a missing or non-string command throws. -/
def formatBashSummary (input : Option ToolInput) : Except String String :=
  match inputGet input "command" with
  | none =>
    .error "TypeError: Cannot read properties of undefined (reading 'startsWith')"
  | some (.s command) =>
    let displayCommand :=
      if startsWithJs command "LS " then "ls " ++ String.mk (command.data.drop 3)
      else command
    let finalCommand := if displayCommand = "LS" then "ls" else displayCommand
    .ok ("<b>Bash:</b> <code>" ++ finalCommand ++ "</code>")
  | some _ => .error "TypeError: command.startsWith is not a function"

/-- `formatReadSummary`. -/
def formatReadSummary (procCwd : String) (ctx : Ctx) (input : Option ToolInput) :
    String :=
  let rel := makeRelativePath procCwd (jvalToPathArg (inputGet input "file_path"))
    ctx.currentCwd
  let filePath := if rel = "" then "unknown file" else rel
  match inputGet input "limit" with
  | some j =>
    if jvalTruthy j then
      "<b>Read:</b> <code>" ++ filePath ++ ", limit: " ++ jvalInterp j ++ "</code>"
    else "<b>Read:</b> <code>" ++ filePath ++ "</code>"
  | none => "<b>Read:</b> <code>" ++ filePath ++ "</code>"

/-- `formatGrepSummary`. -/
def formatGrepSummary (procCwd : String) (ctx : Ctx) (input : Option ToolInput) :
    String :=
  let pattern := jvalInterpU (inputGet input "pattern")
  let path :=
    match inputGet input "path" with
    | some j =>
      if jvalTruthy j then makeRelativePath procCwd (some (jvalInterp j)) ctx.currentCwd
      else "current directory"
    | none => "current directory"
  match inputGet input "include" with
  | some j =>
    if jvalTruthy j then
      "<b>Grep:</b> pattern <code>" ++ pattern ++ "</code> in <code>" ++ path ++
        "</code> (" ++ jvalInterp j ++ ")"
    else "<b>Grep:</b> pattern <code>" ++ pattern ++ "</code> in <code>" ++ path ++ "</code>"
  | none => "<b>Grep:</b> pattern <code>" ++ pattern ++ "</code> in <code>" ++ path ++ "</code>"

/-- `formatLSSummary`. -/
def formatLSSummary (procCwd : String) (ctx : Ctx) (input : Option ToolInput) :
    String :=
  let path :=
    match inputGet input "path" with
    | some j =>
      if jvalTruthy j then makeRelativePath procCwd (some (jvalInterp j)) ctx.currentCwd
      else "current directory"
    | none => "current directory"
  "<b>ls:</b> <code>" ++ path ++ "</code>"

/-- `formatToolInputHtml`: one key shows just its value, several show
comma-joined `key: value` pairs. -/
def formatToolInputHtml (input : Option ToolInput) : String :=
  match input with
  | none => "<code>undefined</code>"
  | some m =>
    match m with
    | [(_, v)] => "<code>" ++ jvalInterp v ++ "</code>"
    | _ =>
      "<code>" ++
        String.intercalate ", " (m.map (fun p => p.1 ++ ": " ++ jvalInterp p.2)) ++
        "</code>"

/-- `createContentBasedSummary` (the orphaned-result fallback; the
non-string guard of the source is unreachable here because content has
already been stringified). -/
def createContentBasedSummary (content : String) : String :=
  if hasLineNumbers content then
    "<b>Read:</b> file content (" ++ toString (splitNl content).length ++ " lines)"
  else if matchFoundFiles content then
    "<b>Search:</b> " ++ ((splitNl content).headD "")
  else if matchBarePath content then
    "<b>Search:</b> found " ++ toString (splitNl content).length ++ " file(s)"
  else if matchSuccessMessage content then
    "<b>Edit:</b> " ++ ((splitNl content).headD "")
  else if matchCommandOutput content then
    "<b>Command:</b> executed successfully"
  else if matchReceived content then
    "<b>Fetch:</b> " ++ ((splitNl content).headD "")
  else
    "<b>Tool result:</b> " ++ toString content.length ++ " characters"

/-- `createToolResultSummary`: dispatch on the originating tool's name,
falling back to content-shape inference for orphaned results. -/
def createToolResultSummary (procCwd : String) (ctx : Ctx) (content : String)
    (tid : Option String) : Except String String :=
  match lookupToolCall ctx tid with
  | none => .ok (createContentBasedSummary content)
  | some toolCall =>
    let toolName := toolCall.name.getD "undefined"
    if toolName = "TodoWrite" then .ok "<b>TodoWrite:</b> Updated task list"
    else if toolName = "Read" then .ok (formatReadSummary procCwd ctx toolCall.input)
    else if toolName = "Grep" then .ok (formatGrepSummary procCwd ctx toolCall.input)
    else if toolName = "Edit" then
      .ok ("<b>Edit:</b> <code>" ++
        makeRelativePath procCwd (jvalToPathArg (inputGet toolCall.input "file_path"))
          ctx.currentCwd ++ "</code>")
    else if toolName = "Bash" then formatBashSummary toolCall.input
    else if toolName = "Write" then
      .ok ("<b>Write:</b> <code>" ++
        makeRelativePath procCwd (jvalToPathArg (inputGet toolCall.input "file_path"))
          ctx.currentCwd ++ "</code>")
    else if toolName = "LS" then .ok (formatLSSummary procCwd ctx toolCall.input)
    else .ok ("<b>" ++ toolName ++ ":</b> " ++ formatToolInputHtml toolCall.input)

/-- One todo line: `- [x] text` when completed, `- [ ] text` otherwise,
with `" (in progress)"` appended for in-progress items. -/
def formatTodoLine (t : JVal) : String :=
  let status :=
    match t with
    | .obj fs => assocGet fs "status"
    | _ => none
  let isStatus : String → Bool := fun s =>
    match status with
    | some (.s v) => v = s
    | _ => false
  let checkbox := if isStatus "completed" then "[x]" else "[ ]"
  let indicator := if isStatus "in_progress" then " (in progress)" else ""
  let contentVal :=
    match t with
    | .obj fs => assocGet fs "content"
    | _ => none
  "- " ++ checkbox ++ " " ++ jvalInterpU contentVal ++ indicator

/-- `formatTodoList`: missing/falsy `todos` yields nothing; a non-array
truthy value would throw at `.map`. -/
def formatTodoList (input : Option ToolInput) : Except String (List String) :=
  match inputGet input "todos" with
  | none => .ok []
  | some j =>
    if ¬ jvalTruthy j then .ok []
    else
      match j with
      | .arr todos => .ok (todos.map formatTodoLine)
      | _ => .error "TypeError: input.todos.map is not a function"

/-- `formatTodoWrite`: uncollapsed task-list block. -/
def formatTodoWrite (toolCall : ContentItem) : Except String (List String) := do
  let l ← formatTodoList toolCall.input
  .ok (["**Updated task list**", ""] ++ l ++ [""])

/-- `formatStructuredPatch`: requires both a file path and a patch in the
shared context; renders an `**Edit:**` header and one `diff` fence holding
every hunk's lines.  The queued item itself is not consulted. -/
def formatStructuredPatch (procCwd : String) (ctx : Ctx) : List String :=
  match ctx.currentToolUseResult with
  | none => []
  | some tur =>
    match tur.filePath, tur.structuredPatch with
    | some fp, some patch =>
      if fp = "" then []
      else
        ["**Edit:** `" ++ makeRelativePath procCwd (some fp) ctx.currentCwd ++ "`",
         "", "```diff"] ++ patch.flatMap (fun h => h.lines) ++ ["```", ""]
    | _, _ => []

/-- `formatRegularToolResult`: collapsed details block around the formatted
content, with a tool-specific summary line. -/
def formatRegularToolResult (procCwd : String) (ctx : Ctx) (content : String)
    (tid : Option String) : Except String (List String) := do
  let toolSummary ← createToolResultSummary procCwd ctx content tid
  .ok (["<details><summary>" ++ toolSummary ++ "</summary>", ""] ++
    formatToolContent procCwd ctx content tid ++ ["</details>", ""])

/-- `formatToolResult`: a context-level structured patch wins over
everything; then `TodoWrite`; then the regular collapsed rendering. -/
def formatToolResult (procCwd : String) (ctx : Ctx) (toolResult : ContentItem) :
    Except String (List String) :=
  let content := extractResultContent toolResult
  let toolUseId := toolResult.tool_use_id
  let toolCall := lookupToolCall ctx toolUseId
  if (ctx.currentToolUseResult.bind (fun t => t.structuredPatch)).isSome then
    .ok (formatStructuredPatch procCwd ctx)
  else
    match toolCall with
    | some tc =>
      if tc.name == some "TodoWrite" then formatTodoWrite tc
      else formatRegularToolResult procCwd ctx content toolUseId
    | none => formatRegularToolResult procCwd ctx content toolUseId

/-- `formatToolResults`: concatenate the per-item renderings in order (the
source's `forEach` push loop; the first throwing item propagates). -/
def formatToolResults (procCwd : String) (ctx : Ctx) :
    List ContentItem → Except String (List String)
  | [] => .ok []
  | tr :: rest => do
    let l ← formatToolResult procCwd ctx tr
    let ls ← formatToolResults procCwd ctx rest
    pure (l ++ ls)

/-! ## MessageProcessor

Embedding of the current `MessageProcessor` (the variant wired to the
`MarkdownFormatter`): `handleToolResults` never flushes — the formatter
decides after each record — and cancelled (error) results are re-queued
with the error flag stripped, with a synthesized structured patch for
cancelled `Edit` calls. -/

/-- Copy of a content item with `is_error` overwritten
(`{ ...result, is_error: false }`). -/
def ContentItem.setIsError : ContentItem → Bool → ContentItem
  | .mk t x id n inp tid c _, b => .mk t x id n inp tid c (some b)

/-- The Edit branch of `handleToolResults`: when the cancelled call is an
`Edit` whose input has truthy `file_path`, `old_string` and `new_string`,
store a synthesized one-hunk structured patch in the context.
`old_string.split` / `new_string.split` throw on truthy non-strings. -/
def cancelledEditPatch (ctx : Ctx) (toolCall : Option ContentItem) :
    Except String Ctx :=
  match toolCall with
  | some tc =>
    if tc.name == some "Edit" then
      let input := tc.input
      let fp := inputGet input "file_path"
      let oldString := inputGet input "old_string"
      let newString := inputGet input "new_string"
      if (fp.map jvalTruthy).getD false ∧ (oldString.map jvalTruthy).getD false ∧
          (newString.map jvalTruthy).getD false then
        match oldString, newString with
        | some (.s o), some (.s n) =>
          let oldLines := splitNl o
          let newLines := splitNl n
          let diffLines := oldLines.map (fun l => "-" ++ l) ++
            newLines.map (fun l => "+" ++ l)
          .ok { ctx with
            currentToolUseResult := some
              { filePath := some (jvalInterpU fp),
                structuredPatch := some
                  [{ oldStart := 1, oldLines := Int.ofNat oldLines.length,
                     newStart := 1, newLines := Int.ofNat newLines.length,
                     lines := diffLines }] } }
        | some (.s _), _ => .error "TypeError: newString.split is not a function"
        | _, _ => .error "TypeError: oldString.split is not a function"
      else .ok ctx
    else .ok ctx
  | none => .ok ctx

/-- `handleToolResults`: error results yield a cancellation notice and are
re-queued with the error flag stripped (Edit cancels also synthesize a
patch); normal results are queued silently.  The `isContinuing` lookahead
is computed in the source but unused — the formatter makes the decision. -/
def handleToolResults (ctx : Ctx) (toolResults : List ContentItem) :
    Except String (List String × Ctx) :=
  let errorResults := toolResults.filter (fun r => r.is_error == some true)
  if errorResults.isEmpty then
    .ok ([], { ctx with pendingToolResults := ctx.pendingToolResults ++ toolResults })
  else do
    let (ctx, cancelledResults) ← errorResults.foldlM
      (fun (st : Ctx × List ContentItem) r => do
        let (c, acc) := st
        let toolCall := lookupToolCall c r.tool_use_id
        let c ← cancelledEditPatch c toolCall
        pure (c, acc ++ [r.setIsError false])) (ctx, [])
    .ok (["**❌ User cancelled tool execution**", ""],
      { ctx with pendingToolResults := ctx.pendingToolResults ++ cancelledResults })

/-- `outputUserContent`: a `### User` section block-quoting every line of
every item's extracted text. -/
def outputUserContent (contentItems : List ContentItem) : List String :=
  ["### User", ""] ++
    contentItems.flatMap (fun i =>
      (splitNl (extractTextFromContentItem i)).map (fun l => "> " ++ l)) ++
    [""]

/-- `handleCommandMessage`: `/clear` renders a clear notice; other commands
render quoted under `### User` (args omitted when empty). -/
def handleCommandMessage (name args : String) : List String :=
  if name = "/clear" then ["**🧹 User cleared the session**", ""]
  else
    ["### User", ""] ++
      [if args ≠ "" then "> " ++ name ++ " \"" ++ args ++ "\"" else "> " ++ name] ++
      [""]

/-- `handleStringMessage`. -/
def handleStringMessage (r : Record) : List String :=
  if isEmptyCommandOutput r then []
  else
    match extractCommand r with
    | some (name, args) => handleCommandMessage name args
    | none =>
      outputUserContent [textItem (match recContent r with | .inl s => s | .inr _ => "")]

/-- `handleMetaMessage`: collapsed details with a 50-character summary and
the block-quoted content. -/
def handleMetaMessage (r : Record) : List String :=
  let contentText := getTextContent r
  if contentText = "" then []
  else
    let s0 := (splitNl contentText).headD ""
    let summaryText := if s0 = "" then contentText else s0
    let truncatedSummary :=
      if summaryText.length > 50 then summaryText.take 50 ++ "..." else summaryText
    ["<details><summary>" ++ truncatedSummary ++ "</summary>", ""] ++
      (splitNl contentText).map (fun l => "> " ++ l) ++
      ["", "</details>", ""]

/-- `handleArrayMessage`: tool results first (possibly just queued), then
the non-tool-result items as a `### User` section unless the content is the
interruption sentinel (never equal for array content). -/
def handleArrayMessage (ctx : Ctx) (r : Record) :
    Except String (List String × Ctx) := do
  let toolResults := getToolResults r
  let regularContent := getRegularContent r
  let (out1, ctx) ←
    if toolResults.isEmpty then pure (([] : List String), ctx)
    else handleToolResults ctx toolResults
  let out2 :=
    if ¬ regularContent.isEmpty ∧ ¬ isInterruptionMessage r then
      outputUserContent regularContent
    else []
  .ok (out1 ++ out2, ctx)

/-- `processUserMessage`: caveat/API-error records are silent; meta records
render a collapsed block; otherwise the record's `toolUseResult` is
captured (even when absent) and the content shape dispatches. -/
def processUserMessage (ctx : Ctx) (r : Record) :
    Except String (List String × Ctx) :=
  if isCaveatMessage r ∨ isApiError r then .ok ([], ctx)
  else if r.isMeta then .ok (handleMetaMessage r, ctx)
  else
    let ctx := { ctx with currentToolUseResult := r.toolUseResult }
    if isContentArray r then handleArrayMessage ctx r
    else .ok (handleStringMessage r, ctx)

/-- `outputAssistantText`. -/
def outputAssistantText (text : String) : List String :=
  ["### Assistant", "", text, ""]

/-- `outputAssistantTextItems`. -/
def outputAssistantTextItems (textItems : List ContentItem) : List String :=
  ["### Assistant", ""] ++ textItems.flatMap (fun i => [i.text.getD "", ""])

/-- `handleAssistantArrayContent`: with tool uses present, text renders
first and the uses are queued and registered by id (never rendered here);
without tool uses the text items render alone. -/
def handleAssistantArrayContent (ctx : Ctx) (r : Record) : List String × Ctx :=
  let content := match recContent r with | .inr l => l | .inl _ => []
  let textContent := content.filter (fun i => i.type == "text")
  let toolUses := getToolUses r
  if ¬ toolUses.isEmpty then
    let out :=
      if ¬ textContent.isEmpty then
        ["### Assistant", ""] ++ textContent.flatMap (fun i => [i.text.getD "", ""])
      else []
    let ctx :=
      { ctx with
        pendingTools := ctx.pendingTools ++ toolUses,
        toolCallMap := toolUses.foldl (fun m tu =>
          match tu.id with
          | some id => if id ≠ "" then assocSet m id tu else m
          | none => m) ctx.toolCallMap }
    (out, ctx)
  else if ¬ textContent.isEmpty then (outputAssistantTextItems textContent, ctx)
  else ([], ctx)

/-- `processAssistantMessage`. -/
def processAssistantMessage (ctx : Ctx) (r : Record) : List String × Ctx :=
  if isApiError r then ([], ctx)
  else if isContentArray r then handleAssistantArrayContent ctx r
  else (outputAssistantText (match recContent r with | .inl s => s | .inr _ => ""), ctx)

/-- The cwd capture at the top of `processMessage`: a truthy `cwd` on the
record overwrites the context's current working directory. -/
def cwdUpdate (ctx : Ctx) (data : Record) : Ctx :=
  match data.cwd with
  | some c => if c ≠ "" then { ctx with currentCwd := some c } else ctx
  | none => ctx

/-- `MessageProcessor.processMessage`: update the cwd from the record, then
dispatch on the record type (unknown types are silent). -/
def processMessage (ctx : Ctx) (data : Record) :
    Except String (List String × Ctx) :=
  let ctx := cwdUpdate ctx data
  if data.type = "summary" then .ok ([], ctx)
  else if data.type = "user" then processUserMessage ctx data
  else if data.type = "assistant" then .ok (processAssistantMessage ctx data)
  else .ok ([], ctx)

/-! ## MarkdownFormatter (formatters/MarkdownFormatter.ts)

`convertSession` resets the processor context, emits the title, runs the
per-record step (which flushes pending tool results unless the next record
is a user record still carrying tool results), and finally flushes
whatever remains. -/

/-- The formatter's lookahead: is the next record a `user` record whose
array content contains a `tool_result` item?  (String content fails the
`?.some?.()` optional chain and counts as `false`.) -/
def hasToolResultsNext (msgs : List Record) (idx : Nat) : Bool :=
  match msgs.get? (idx + 1) with
  | none => false
  | some nm =>
    nm.type == "user" &&
      (match nm.message with
       | some m =>
         match m.content with
         | some (.inr items) => items.any (fun i => i.type == "tool_result")
         | _ => false
       | none => false)

/-- `MarkdownFormatter.processMessage`: run the processor, then flush the
pending tool results unless the next record continues them; a flush clears
the pending lists and the captured `toolUseResult` but keeps the
tool-call map. -/
def formatterStep (procCwd : String) (ctx : Ctx) (msgs : List Record)
    (idx : Nat) (data : Record) : Except String (List String × Ctx) := do
  let (result, ctx) ← processMessage ctx data
  if ctx.pendingToolResults.isEmpty then .ok (result, ctx)
  else if hasToolResultsNext msgs idx then .ok (result, ctx)
  else do
    let toolLines ← formatToolResults procCwd ctx ctx.pendingToolResults
    .ok (result ++ toolLines,
      { ctx with
          pendingToolResults := []
          pendingTools := []
          currentToolUseResult := none })

/-- Conversion failure: a per-record error carries the record's index and
the record itself (the source logs the index and the record's JSON before
rethrowing); a terminal-flush error carries only the message. -/
inductive ConvError where
  | atRecord (index : Nat) (record : Record) (msg : String)
  | atFlush (msg : String)

/-- The per-record loop of `convertSession`. -/
def convLoop (procCwd : String) (msgs : List Record) :
    List Record → Nat → Ctx → List String → Except ConvError (List String × Ctx)
  | [], _, ctx, out => .ok (out, ctx)
  | m :: rest, idx, ctx, out =>
    match formatterStep procCwd ctx msgs idx m with
    | .error e => .error (.atRecord idx m e)
    | .ok (lines, ctx) => convLoop procCwd msgs rest (idx + 1) ctx (out ++ lines)

/-- JS `a || b` over an optional string (empty strings are falsy). -/
def jsOrStr (o : Option String) (d : String) : String :=
  match o with
  | some s => if s = "" then d else s
  | none => d

/-- `MarkdownFormatter.convertSession`: note the incoming context is
discarded (`resetContext()` runs first), so no state leaks between
conversions. -/
def convertSession (procCwd : String) (ctx0 : Ctx) (session : Session) :
    Except ConvError (String × Ctx) := do
  let summary := jsOrStr session.summary (jsOrStr session.generatedSummary "Untitled")
  let ctx := initialCtx
  let (body, ctx) ← convLoop procCwd session.messages session.messages 0 ctx []
  let (flushed, ctx) ←
    if ctx.pendingToolResults.isEmpty then pure (([] : List String), ctx)
    else
      match formatToolResults procCwd ctx ctx.pendingToolResults with
      | .error e => .error (.atFlush e)
      | .ok l =>
        pure (l,
          { ctx with
              pendingToolResults := []
              pendingTools := []
              currentToolUseResult := none })
  .ok (joinNl (["# " ++ summary, ""] ++ body ++ flushed), ctx)

/-! ## SessionParser (parsers/SessionParser.ts)

`parseInput` is modelled from the point where lines have been parsed into
records (blank and malformed lines were already skipped by the caller,
non-fatally).  The summary-collection pass, the grouping pass, the
summary-boundary splitting and the per-chunk session construction follow
the source; the JS `Map` is an insertion-ordered association list whose
`set` overwrites in place. -/

/-- First pass (`collectSummaries`): map each summary record's `leafUuid`
to its summary text (truthiness guards on both fields). -/
def collectSummaries (records : List Record) : List (String × String) :=
  records.foldl (fun m r =>
    if r.type = "summary" then
      match r.leafUuid, r.summary with
      | some lu, some s => if lu ≠ "" ∧ s ≠ "" then assocSet m lu s else m
      | _, _ => m
    else m) []

/-- Append a record to its session bucket (the bucket is created on first
sight of the id). -/
def appendToGroup (groups : List (String × List Record)) (sid : String)
    (r : Record) : List (String × List Record) :=
  if groups.any (fun p => p.1 == sid) then
    groups.map (fun p => if p.1 == sid then (p.1, p.2 ++ [r]) else p)
  else groups ++ [(sid, [r])]

/-- Grouping pass of `processMessages`: records with a truthy `sessionId`
are appended to that id's bucket in order; others are dropped. -/
def groupBySessionId (records : List Record) : List (String × List Record) :=
  records.foldl (fun groups r =>
    match r.sessionId with
    | some sid => if sid ≠ "" then appendToGroup groups sid r else groups
    | none => groups) []

/-- Is this record a summary boundary (truthy `uuid` present in the
summary-leaf table)? -/
def isBoundary (leafs : List (String × String)) (r : Record) : Bool :=
  match r.uuid with
  | some u => u ≠ "" && (assocGet leafs u).isSome
  | none => false

/-- The sorted indices of the boundary records of a bucket. -/
def boundaryIndices (leafs : List (String × String)) (msgs : List Record) :
    List Nat :=
  (List.range msgs.length).filter (fun i =>
    match msgs.get? i with
    | some m => isBoundary leafs m
    | none => false)

/-- The loop of `splitSessionBySummaries`: each boundary index closes a
chunk `slice(currentStart, i+1)`; the first chunk keeps the base id,
later ones get `_1`, `_2`, …; a trailing chunk exists only when records
remain after the last boundary. -/
def chunkLoop (baseId : String) (msgs : List Record) :
    List Nat → Nat → Nat → List (String × List Record)
  | [], start, counter =>
    if start < msgs.length then
      [(baseId ++ "_" ++ toString counter, msgs.drop start)]
    else []
  | i :: rest, start, counter =>
    ((if counter = 0 then baseId else baseId ++ "_" ++ toString counter),
      (msgs.drop start).take (i + 1 - start)) ::
      chunkLoop baseId msgs rest (i + 1) (counter + 1)

/-- `splitSessionBySummaries`, reified as the list of `(id, chunk)` pairs
handed to `createSession` (a bucket with no boundaries is one session). -/
def splitSessionBySummaries (leafs : List (String × String)) (baseId : String)
    (msgs : List Record) : List (String × List Record) :=
  let idxs := boundaryIndices leafs msgs
  if idxs.isEmpty then [(baseId, msgs)]
  else chunkLoop baseId msgs idxs 0 0

/-- JS `<` between possibly-invalid dates (`NaN` comparisons are false). -/
def jsDateLt (a b : Option Int) : Bool :=
  match a, b with
  | some x, some y => x < y
  | _, _ => false

/-- `isCommand` on a record (the `<command-name>` regex test). -/
def isCommandRec (r : Record) : Bool :=
  match recContent r with
  | .inl s => (findCommandName s.data).isSome
  | .inr _ => false

/-- `extractSummaryFromMessage`: skip commands/interruptions/empty command
output and blank text; otherwise the cleaned text. -/
def extractSummaryFromMessage (r : Record) : Option String :=
  if isCommandRec r ∨ isInterruptionMessage r ∨ isEmptyCommandOutput r then none
  else
    let textContent := getTextContent r
    if jsTrim textContent = "" then none
    else some (cleanSummary textContent)

/-- `processSessionMessage`, step 1: push the record. -/
def psmPush (s : Session) (data : Record) : Session :=
  { s with messages := s.messages ++ [data] }

/-- `processSessionMessage`, step 2: apply a matching summary. -/
def psmSummary (leafs : List (String × String)) (s : Session)
    (data : Record) : Session :=
  match data.uuid with
  | some u =>
    if u ≠ "" ∧ (assocGet leafs u).isSome then { s with summary := assocGet leafs u }
    else s
  | none => s

/-- Timestamp sub-step: set `firstTimestamp` on first sight. -/
def psmTs1 (ts : String) (s : Session) : Session :=
  match s.firstTimestamp with
  | none => { s with firstTimestamp := some ts }
  | some _ => s

/-- Timestamp sub-step: always refresh `lastTimestamp`. -/
def psmTs2 (ts : String) (s : Session) : Session :=
  { s with lastTimestamp := some ts }

/-- Timestamp sub-step: lower `firstCreated`. -/
def psmTs3 (messageDate : Option Int) (s : Session) : Session :=
  if s.firstCreated = some 0 ∨ jsDateLt messageDate s.firstCreated then
    { s with firstCreated := messageDate }
  else s

/-- Timestamp sub-step: raise `lastModified`. -/
def psmTs4 (messageDate : Option Int) (s : Session) : Session :=
  if s.lastModified = some 0 ∨ jsDateLt s.lastModified messageDate then
    { s with lastModified := messageDate }
  else s

/-- `processSessionMessage`, step 3: update the timestamp strings and the
`Date` fields. `messageDate.getTime() !== 0` is also true for an Invalid
Date, hence the `≠ some 0` guard. -/
def psmTimestamps (jsParse : String → Option Int) (s : Session)
    (data : Record) : Session :=
  match data.timestamp with
  | some ts =>
    if ts ≠ "" ∧ isValidTimestamp jsParse ts then
      let s := psmTs2 ts (psmTs1 ts s)
      let messageDate := parseTimestamp jsParse ts
      if messageDate ≠ some 0 then psmTs4 messageDate (psmTs3 messageDate s)
      else s
    else s
  | none => s

/-- `processSessionMessage`, step 4: derive a generated summary from the
first eligible user record. -/
def psmGenerated (s : Session) (data : Record) : Session :=
  if (s.generatedSummary.getD "") = "" ∧ data.type = "user" ∧ ¬ data.isMeta then
    match extractSummaryFromMessage data with
    | some sum => if sum ≠ "" ∧ sum ≠ "Untitled" then { s with generatedSummary := some sum } else s
    | none => s
  else s

/-- `processSessionMessage`, step 5: count user/assistant records. -/
def psmCount (s : Session) (data : Record) : Session :=
  if data.type = "user" ∨ data.type = "assistant" then
    { s with messageCount := s.messageCount + 1 }
  else s

/-- `processSessionMessage`: push the record, apply a matching summary,
update the timestamp strings and `Date` fields, derive a generated summary
from the first eligible user record, and count user/assistant records. -/
def processSessionMessage (jsParse : String → Option Int)
    (leafs : List (String × String)) (s : Session) (data : Record) : Session :=
  psmCount
    (psmGenerated (psmTimestamps jsParse (psmSummary leafs (psmPush s data) data) data)
      data) data

/-- `createSession`: build the session by folding the chunk's records;
keep it only when it counted at least one user/assistant record. -/
def createSession (jsParse : String → Option Int)
    (leafs : List (String × String)) (sessions : List (String × Session))
    (sessionId : String) (msgs : List Record) : List (String × Session) :=
  if msgs.isEmpty then sessions
  else
    let session := msgs.foldl (processSessionMessage jsParse leafs)
      { id := sessionId }
    if session.messageCount > 0 then assocSet sessions sessionId session
    else sessions

/-- `parseInput` from parsed records: collect summaries, group by session
id, split each bucket at its boundaries, and build every chunk's session. -/
def parseInput (jsParse : String → Option Int) (records : List Record) :
    List (String × Session) :=
  let leafs := collectSummaries records
  (groupBySessionId records).foldl (fun sess p =>
    (splitSessionBySummaries leafs p.1 p.2).foldl
      (fun acc q => createSession jsParse leafs acc q.1 q.2) sess) []

/-- All `(id, chunk)` pairs produced by segmentation, before session
construction (used to state the preservation property). -/
def allChunks (records : List Record) : List (String × List Record) :=
  let leafs := collectSummaries records
  (groupBySessionId records).flatMap (fun p =>
    splitSessionBySummaries leafs p.1 p.2)

/-- Concatenation of all sessions' record lists, in session order. -/
def flattenSessions (sessions : List (String × Session)) : List Record :=
  sessions.flatMap (fun p => p.2.messages)

/-! ## Support definitions for the claim statements -/

/-- Drop the last `n` elements (saturating). -/
def popN {α : Type} : Nat → List α → List α
  | 0, l => l
  | n + 1, l => (popN n l).dropLast

/-- A path segment that absolute-mode normalization pushes verbatim. -/
def normalSeg (s : String) : Prop :=
  s ≠ "" ∧ s ≠ "." ∧ s ≠ ".."

/-- A well-formed rendered segment: pushable and slash-free. -/
def goodSeg (s : String) : Prop :=
  normalSeg s ∧ '/' ∉ s.data

/-- Does the grouping pass keep this record (truthy `sessionId`)? -/
def hasSessionId (r : Record) : Bool :=
  match r.sessionId with
  | some s => s ≠ ""
  | none => false

/-- User/assistant records are the ones `messageCount` counts. -/
def isCounted (r : Record) : Bool :=
  r.type == "user" || r.type == "assistant"

/-- The session `createSession` builds from a chunk. -/
def buildSession (jsParse : String → Option Int)
    (leafs : List (String × String)) (id : String) (msgs : List Record) : Session :=
  msgs.foldl (processSessionMessage jsParse leafs) { id := id }

/-- Chunk ids as the spec states them: the first chunk keeps the base id,
chunk `j` (counting from `counter`) gets `base_j`. -/
def chunkIdsFrom (baseId : String) (counter k : Nat) : List String :=
  (List.range k).map (fun j =>
    if counter + j = 0 then baseId else baseId ++ "_" ++ toString (counter + j))

/-- Chunk contents as the spec states them: slices `[start..i1]`,
`[i1+1..i2]`, …, with a trailing `[ik+1..end]` slice only when records
remain after the last boundary. -/
def chunkSlicesFrom (msgs : List Record) (start : Nat) (idxs : List Nat) :
    List (List Record) :=
  let stops := idxs.map (fun i => i + 1)
  let lastStop := (start :: stops).getLastD 0
  let stops2 := stops ++ (if lastStop < msgs.length then [msgs.length] else [])
  ((start :: stops).zip stops2).map (fun p => (msgs.drop p.1).take (p.2 - p.1))

/-! ## Concrete instances used by witnesses and counterexamples -/

/-- A context carrying a structured patch (for the C10 instance). -/
def c10Ctx : Ctx :=
  { currentCwd := some "/w",
    currentToolUseResult := some
      { filePath := some "/w/f.ts",
        structuredPatch := some [{ lines := ["-old line", "+new line"] }] } }

/-- Two distinct pending results (for the C10 instance). -/
def c10Items : List ContentItem :=
  [toolResultItem "tA" "first result body" false,
   toolResultItem "tB" "second result body" false]

/-- An `LS` tool-use (for the C7 instance). -/
def c7ToolCall : ContentItem :=
  toolUseItem "tls" "LS" [("path", .s "/w")]

/-- A context that registered the `LS` call (for the C7 instance). -/
def c7Ctx : Ctx :=
  { toolCallMap := [("tls", c7ToolCall)] }

/-- A 75-line tool result content (for the C7 instance). -/
def c7Content : String :=
  joinNl (List.replicate 75 "entry.txt")

/-- A `Bash` tool-use whose `input` map lacks `command` (C5 instance). -/
def c5UseRecord : Record :=
  { type := "assistant"
    message := some
      { role := "assistant"
        content := some (.inr [toolUseItem "t1" "Bash" []]) } }

/-- The user record carrying that call's (well-formed) result. -/
def c5ResultRecord : Record :=
  { type := "user"
    message := some
      { role := "user"
        content := some (.inr [toolResultItem "t1" "done" false]) } }

/-- The two-record session exercising the missing-`command` path. -/
def c5Session : Session :=
  { id := "s", messages := [c5UseRecord, c5ResultRecord] }

/-- After the assistant record of the coalescing scenario: both tool uses
are queued and registered by id; nothing is rendered yet. -/
def c1RegisterUses (ctx : Ctx) (aRec : Record) (tu1 tu2 : ContentItem)
    (t1 t2 : String) : Ctx :=
  let c := cwdUpdate ctx aRec
  { c with
      pendingTools := c.pendingTools ++ [tu1, tu2]
      toolCallMap := assocSet (assocSet c.toolCallMap t1 tu1) t2 tu2 }

/-- After the first result record: its single tool result is queued and
its `toolUseResult` payload captured; no flush happened. -/
def c1QueueFirst (ctxA : Ctx) (r1 : Record) (res1 : ContentItem) : Ctx :=
  let c := { cwdUpdate ctxA r1 with currentToolUseResult := r1.toolUseResult }
  { c with pendingToolResults := c.pendingToolResults ++ [res1] }

/-- After the second result record, just before the flush: both results
are pending, the second record's payload is captured. -/
def c1QueueSecond (ctxB : Ctx) (r2 : Record) (res2 : ContentItem) : Ctx :=
  let c := { cwdUpdate ctxB r2 with currentToolUseResult := r2.toolUseResult }
  { c with pendingToolResults := c.pendingToolResults ++ [res2] }

/-- The context after a flush: pending lists and the captured
`toolUseResult` cleared (the tool-call map survives). -/
def flushedCtx (c : Ctx) : Ctx :=
  { c with
      pendingToolResults := []
      pendingTools := []
      currentToolUseResult := none }

/-- The context at flush time after a cancelled (error) tool result: the
stripped copy of the result is the single pending item and the captured
`toolUseResult` is the record's (absent) payload. -/
def cancelledFlushCtx (ctx : Ctx) (res : ContentItem) : Ctx :=
  { ctx with
      currentToolUseResult := none
      pendingToolResults := [res.setIsError false] }

/-- An assistant record issuing a `Bash` call (C3 instance). -/
def c3UseRecord : Record :=
  { type := "assistant"
    message := some
      { role := "assistant"
        content := some (.inr [toolUseItem "t1" "Bash" [("command", .s "rm -rf /tmp/x")]]) } }

/-- The user record cancelling that call (`is_error` result). -/
def c3ErrorRecord : Record :=
  { type := "user"
    message := some
      { role := "user"
        content := some (.inr [toolResultItem "t1" "boom" true]) } }

/-- The two-record session for the C3 counterexample. -/
def c3Session : Session :=
  { id := "s", messages := [c3UseRecord, c3ErrorRecord] }

/-- The markdown the converter actually produces for `c3Session`. -/
def c3Markdown : String :=
  "# Untitled\n\n**❌ User cancelled tool execution**\n\n<details><summary><b>Bash:</b> <code>rm -rf /tmp/x</code></summary>\n\n```\nboom\n```\n</details>\n"

/-- A registered `Bash` call for the C3 amended witness. -/
def c3wToolCall : ContentItem :=
  toolUseItem "t9" "Bash" [("command", .s "echo hi")]

/-- Context with that call registered (C3 amended witness). -/
def c3wCtx : Ctx :=
  { toolCallMap := [("t9", c3wToolCall)] }

/-- The cancelled result item (C3 amended witness). -/
def c3wRes : ContentItem :=
  toolResultItem "t9" "cancelled run" true

/-- The user record carrying the cancelled result (C3 amended witness). -/
def c3wRecord : Record :=
  { type := "user"
    message := some
      { role := "user"
        content := some (.inr [c3wRes]) } }

/-- Two `Bash` tool uses batched in one assistant turn (C1 witness). -/
def c1wTu1 : ContentItem := toolUseItem "t1" "Bash" [("command", .s "echo one")]

/-- The second batched tool use (C1 witness). -/
def c1wTu2 : ContentItem := toolUseItem "t2" "Bash" [("command", .s "echo two")]

/-- The first tool result, answering `t1` (C1 witness). -/
def c1wRes1 : ContentItem := toolResultItem "t1" "one" false

/-- The second tool result, answering `t2` (C1 witness). -/
def c1wRes2 : ContentItem := toolResultItem "t2" "two" false

/-- The assistant record emitting both tool uses (C1 witness). -/
def c1wA : Record :=
  { type := "assistant"
    message := some
      { role := "assistant"
        content := some (.inr [c1wTu1, c1wTu2]) } }

/-- The first result record (C1 witness). -/
def c1wR1 : Record :=
  { type := "user"
    message := some
      { role := "user"
        content := some (.inr [c1wRes1]) } }

/-- The second result record (C1 witness). -/
def c1wR2 : Record :=
  { type := "user"
    message := some
      { role := "user"
        content := some (.inr [c1wRes2]) } }

/-- The three-record session of the C1 witness. -/
def c1wMsgs : List Record := [c1wA, c1wR1, c1wR2]

/-- The context just before the flush in the C1 witness run. -/
def c1wCtxC : Ctx :=
  c1QueueSecond
    (c1QueueFirst (c1RegisterUses initialCtx c1wA c1wTu1 c1wTu2 "t1" "t2")
      c1wR1 c1wRes1) c1wR2 c1wRes2

/-- The rendered block of the first witness result. -/
def c1wB1 : List String := (formatToolResult "/" c1wCtxC c1wRes1).toOption.getD []

/-- The rendered block of the second witness result. -/
def c1wB2 : List String := (formatToolResult "/" c1wCtxC c1wRes2).toOption.getD []

/-- A one-record session (C9 witness). -/
def c9wSession : Session :=
  { id := "w9"
    messages :=
      [{ type := "user"
         message := some { role := "user", content := some (.inl "hello") } }] }

/-- A deliberately dirty context left over from some earlier run
(C9 witness): stale cwd and a stale pending tool result. -/
def c9wDirtyCtx : Ctx :=
  { currentCwd := some "/tmp"
    pendingToolResults := [toolResultItem "zz" "stale" false] }

/-- The conversion output of the C9 witness session. -/
def c9wOut : String × Ctx :=
  ((convertSession "/" initialCtx c9wSession).toOption).getD ("", initialCtx)

/-- A `sessionId`-bearing record of an uncounted type (C2 counterexample):
its session ends with `messageCount = 0` and is discarded. -/
def c2xRec : Record := { type := "system", sessionId := some "s" }

/-- Two counted records in two sessions (C2 amended witness). -/
def c2wRecords : List Record :=
  [{ type := "user", sessionId := some "a" },
   { type := "user", sessionId := some "b" }]

/-- A summary-leaf lookup table keying records 1 and 3 (C4 witness). -/
def c4wLeafs : List (String × String) := [("u1", "sum one"), ("u3", "sum three")]

/-- A four-record bucket whose records 1 and 3 are boundaries (C4 witness). -/
def c4wMsgs : List Record :=
  [{ type := "user", uuid := some "u0" },
   { type := "user", uuid := some "u1" },
   { type := "user", uuid := some "u2" },
   { type := "user", uuid := some "u3" }]

/-! ## Lemmas and claim theorems -/

theorem formatToolResult_patch (procCwd : String) (ctx : Ctx) (tr : ContentItem)
    (patch : List Hunk)
    (h : ctx.currentToolUseResult.bind (fun t => t.structuredPatch) = some patch) :
    formatToolResult procCwd ctx tr = .ok (formatStructuredPatch procCwd ctx) := by
  unfold formatToolResult
  rw [h]
  simp

theorem formatToolResults_patch_aux (procCwd : String) (ctx : Ctx)
    (patch : List Hunk)
    (h : ctx.currentToolUseResult.bind (fun t => t.structuredPatch) = some patch) :
    ∀ items : List ContentItem,
      formatToolResults procCwd ctx items =
        .ok ((List.replicate items.length (formatStructuredPatch procCwd ctx)).flatten)
  | [] => by simp [formatToolResults]
  | tr :: rest => by
    rw [formatToolResults, formatToolResult_patch procCwd ctx tr patch h,
      formatToolResults_patch_aux procCwd ctx patch h rest]
    rfl

/-- Claim C10: during a flush, when the shared context carries a structured
patch, every pending tool result renders the same `**Edit:**` diff block
(one copy per pending item, the items' own content and ids ignored); and if
the context lacks a file path the per-item rendering is empty. -/
theorem c10_patch_branch_ignores_items (procCwd : String) (ctx : Ctx)
    (items : List ContentItem) (patch : List Hunk)
    (h : ctx.currentToolUseResult.bind (fun t => t.structuredPatch) = some patch) :
    formatToolResults procCwd ctx items =
      .ok ((List.replicate items.length (formatStructuredPatch procCwd ctx)).flatten) ∧
    (ctx.currentToolUseResult.bind (fun t => t.filePath) = none →
      formatStructuredPatch procCwd ctx = []) := by
  constructor
  · exact formatToolResults_patch_aux procCwd ctx patch h items
  · intro hfp
    cases htur : ctx.currentToolUseResult with
    | none => rw [htur] at h; exact Option.noConfusion h
    | some tur =>
      rw [htur] at h hfp
      simp only [Option.some_bind] at h hfp
      unfold formatStructuredPatch
      rw [htur]
      simp [hfp]

/-- Counterexample to claim C3 as stated: for a cancelled (error) result of
a non-Edit tool, the session output is not just the standalone cancellation
line — the stripped result is re-queued and flushed as a collapsed
`<details>` block whose body repeats the error content (`boom`). -/
theorem c3_counterexample :
    (convertSession "/" initialCtx c3Session).map Prod.fst = .ok c3Markdown ∧
    containsSub c3Markdown.data "<details><summary>".data = true ∧
    containsSub c3Markdown.data "boom".data = true ∧
    c3Markdown ≠
      joinNl ["# Untitled", "", "**❌ User cancelled tool execution**", ""] :=
  ⟨rfl, by decide, by decide, by decide⟩

theorem setIsError_tool_use_id (res : ContentItem) (b : Bool) :
    (res.setIsError b).tool_use_id = res.tool_use_id := by
  cases res
  rfl

theorem except_bind_ok {ε α β : Type} (a : α) (f : α → Except ε β) :
    (Except.ok a >>= f : Except ε β) = f a := rfl

/-- Claim C3, amended: a user record whose array content is exactly one
`tool_result` flagged `is_error`, whose originating tool is neither `Edit`
nor `TodoWrite`, and which carries no `toolUseResult` payload, renders as
the cancellation notice `**❌ User cancelled tool execution**` followed by
a collapsed `<details>` block for the re-queued result (error flag
stripped, content preserved) — not as the cancellation line alone.
(The record is taken with no `cwd` update and with an empty pending-result
queue; the next record does not continue tool results.) -/
theorem c3_amended_cancel_requeues (procCwd : String) (ctx : Ctx)
    (msgs : List Record) (idx : Nat) (r : Record) (res : ContentItem)
    (sum : String)
    (htype : r.type = "user")
    (hmeta : r.isMeta = false)
    (hapi : r.isApiErrorMessage = false)
    (hcwd : r.cwd = none)
    (htur : r.toolUseResult = none)
    (hcontent : recContent r = .inr [res])
    (hres : res.type = "tool_result")
    (herr : res.is_error = some true)
    (hnotSpecial : ∀ tc, lookupToolCall ctx res.tool_use_id = some tc →
      tc.name ≠ some "Edit" ∧ tc.name ≠ some "TodoWrite")
    (hpend : ctx.pendingToolResults = [])
    (hnext : hasToolResultsNext msgs idx = false)
    (hsum : createToolResultSummary procCwd (cancelledFlushCtx ctx res)
      (extractResultContent (res.setIsError false)) res.tool_use_id = .ok sum) :
    formatterStep procCwd ctx msgs idx r =
      .ok (["**❌ User cancelled tool execution**", ""] ++
        (["<details><summary>" ++ sum ++ "</summary>", ""] ++
          formatToolContent procCwd (cancelledFlushCtx ctx res)
            (extractResultContent (res.setIsError false)) res.tool_use_id ++
          ["</details>", ""]),
        { ctx with
            pendingToolResults := []
            pendingTools := []
            currentToolUseResult := none }) := by
  have hTR : getToolResults r = [res] := by
    unfold getToolResults
    rw [hcontent]
    simp [hres]
  have hRC : getRegularContent r = [] := by
    unfold getRegularContent
    rw [hcontent]
    simp [hres]
  have hCA : isContentArray r = true := by
    unfold isContentArray
    rw [hcontent]
  have hCaveat : isCaveatMessage r = false := by
    unfold isCaveatMessage
    rw [hmeta]
    rfl
  set ctx1 : Ctx := { ctx with currentToolUseResult := none } with hctx1
  have hEditStep :
      cancelledEditPatch ctx1 (lookupToolCall ctx1 res.tool_use_id) = .ok ctx1 := by
    cases hlk : lookupToolCall ctx1 res.tool_use_id with
    | none => rfl
    | some tc =>
      have hne : tc.name ≠ some "Edit" := (hnotSpecial tc hlk).1
      have hbeq : (tc.name == some "Edit") = false := by simpa using hne
      unfold cancelledEditPatch
      simp only [hbeq, Bool.false_eq_true, if_false, reduceIte]
  have hp1 : ctx1.pendingToolResults = [] := hpend
  have hHTR : handleToolResults ctx1 [res] =
      .ok (["**❌ User cancelled tool execution**", ""], cancelledFlushCtx ctx res) := by
    unfold handleToolResults
    rw [show List.filter (fun x => x.is_error == some true) [res] = [res] by simp [herr]]
    simp only [List.isEmpty_cons, Bool.false_eq_true, if_false, reduceIte]
    rw [show (List.foldlM (fun (st : Ctx × List ContentItem) r => do
        let (c, acc) := st
        let toolCall := lookupToolCall c r.tool_use_id
        let c ← cancelledEditPatch c toolCall
        pure (c, acc ++ [r.setIsError false])) (ctx1, ([] : List ContentItem)) [res] :
          Except String (Ctx × List ContentItem)) =
        .ok (ctx1, [res.setIsError false]) from by
      simp only [List.foldlM_cons, List.foldlM_nil, hEditStep, except_bind_ok]
      rfl]
    rw [except_bind_ok]
    rw [show ctx.pendingToolResults ++ [res.setIsError false] = [res.setIsError false]
      from by rw [hpend]; rfl]
    rfl
  have hApiF : isApiError r = false := hapi
  have hPM : processMessage ctx r =
      .ok (["**❌ User cancelled tool execution**", ""], cancelledFlushCtx ctx res) := by
    unfold processMessage cwdUpdate
    rw [hcwd, htype]
    simp only [String.reduceEq, if_false, if_true, reduceIte]
    unfold processUserMessage
    rw [hCaveat, hApiF, hmeta, htur]
    simp only [Bool.false_eq_true, or_self, if_false, reduceIte]
    rw [hCA]
    simp only [if_true, reduceIte]
    unfold handleArrayMessage
    rw [hTR, hRC]
    simp only [List.isEmpty_cons, Bool.false_eq_true, if_false, reduceIte]
    rw [← hctx1, hHTR, except_bind_ok]
    simp
  have hFTR : formatToolResults procCwd (cancelledFlushCtx ctx res)
      [res.setIsError false] =
      .ok (["<details><summary>" ++ sum ++ "</summary>", ""] ++
        formatToolContent procCwd (cancelledFlushCtx ctx res)
          (extractResultContent (res.setIsError false)) res.tool_use_id ++
        ["</details>", ""]) := by
    have hFT : formatToolResult procCwd (cancelledFlushCtx ctx res)
        (res.setIsError false) =
        .ok (["<details><summary>" ++ sum ++ "</summary>", ""] ++
          formatToolContent procCwd (cancelledFlushCtx ctx res)
            (extractResultContent (res.setIsError false)) res.tool_use_id ++
          ["</details>", ""]) := by
      unfold formatToolResult
      rw [setIsError_tool_use_id]
      have hpatch : (cancelledFlushCtx ctx res).currentToolUseResult = none := rfl
      rw [hpatch]
      simp only [Option.none_bind, Option.isSome_none, Bool.false_eq_true, if_false,
        reduceIte]
      have hreg : formatRegularToolResult procCwd (cancelledFlushCtx ctx res)
          (extractResultContent (res.setIsError false)) res.tool_use_id =
          .ok (["<details><summary>" ++ sum ++ "</summary>", ""] ++
            formatToolContent procCwd (cancelledFlushCtx ctx res)
              (extractResultContent (res.setIsError false)) res.tool_use_id ++
            ["</details>", ""]) := by
        unfold formatRegularToolResult
        rw [hsum]
        rfl
      cases hlk : lookupToolCall (cancelledFlushCtx ctx res) res.tool_use_id with
      | none => exact hreg
      | some tc =>
        have hlk0 : lookupToolCall ctx res.tool_use_id = some tc := hlk
        have hne : tc.name ≠ some "TodoWrite" := (hnotSpecial tc hlk0).2
        have hbeq : (tc.name == some "TodoWrite") = false := by simpa using hne
        simp only [hbeq, Bool.false_eq_true, if_false, reduceIte]
        exact hreg
    unfold formatToolResults
    rw [hFT, except_bind_ok]
    unfold formatToolResults
    rw [except_bind_ok]
    simp only [List.append_nil]
    rfl
  unfold formatterStep
  simp only [hPM, except_bind_ok]
  have hne : (cancelledFlushCtx ctx res).pendingToolResults.isEmpty = false := rfl
  rw [hne]
  simp only [Bool.false_eq_true, if_false, reduceIte]
  rw [hnext]
  simp only [Bool.false_eq_true, if_false, reduceIte]
  rw [show (cancelledFlushCtx ctx res).pendingToolResults = [res.setIsError false]
    from rfl]
  rw [hFTR, except_bind_ok]
  rfl

theorem cwdUpdate_fields (c : Ctx) (r : Record) :
    (cwdUpdate c r).pendingTools = c.pendingTools ∧
    (cwdUpdate c r).pendingToolResults = c.pendingToolResults ∧
    (cwdUpdate c r).toolCallMap = c.toolCallMap ∧
    (cwdUpdate c r).currentToolUseResult = c.currentToolUseResult := by
  unfold cwdUpdate
  cases r.cwd with
  | none => exact ⟨rfl, rfl, rfl, rfl⟩
  | some c2 =>
    by_cases h : c2 = ""
    · simp [h]
    · simp [h]

/-- Claim C1: for an assistant record emitting two tool uses (ids `t1`,
`t2`) followed by two consecutive user records each carrying exactly one
tool result (for `t1`, then for `t2`), the processor emits nothing at the
assistant record, defers the flush at the first result record (the next
record still carries tool results), and flushes at the second, so both
rendered blocks `b1 ++ b2` appear as one contiguous run of output with
nothing between or around them. -/
theorem c1_coalesces_tool_results (procCwd : String) (ctx0 : Ctx)
    (msgs : List Record) (idx : Nat)
    (aRec r1 r2 : Record) (tu1 tu2 res1 res2 : ContentItem)
    (t1 t2 role2 : String) (b1 b2 : List String)
    (hAtype : aRec.type = "assistant")
    (hAapi : aRec.isApiErrorMessage = false)
    (hAcont : recContent aRec = .inr [tu1, tu2])
    (htu1 : tu1.type = "tool_use") (hid1 : tu1.id = some t1) (ht1 : t1 ≠ "")
    (htu2 : tu2.type = "tool_use") (hid2 : tu2.id = some t2) (ht2 : t2 ≠ "")
    (h1type : r1.type = "user") (h1meta : r1.isMeta = false)
    (h1api : r1.isApiErrorMessage = false)
    (h1cont : recContent r1 = .inr [res1])
    (hres1 : res1.type = "tool_result")
    (herr1 : (res1.is_error == some true) = false)
    (h2type : r2.type = "user") (h2meta : r2.isMeta = false)
    (h2api : r2.isApiErrorMessage = false)
    (h2msg : r2.message = some { role := role2, content := some (.inr [res2]) })
    (hres2 : res2.type = "tool_result")
    (herr2 : (res2.is_error == some true) = false)
    (hpend : ctx0.pendingToolResults = [])
    (hGet2 : msgs.get? (idx + 2) = some r2)
    (hNext : hasToolResultsNext msgs (idx + 2) = false)
    (hF1 : formatToolResult procCwd
      (c1QueueSecond (c1QueueFirst (c1RegisterUses ctx0 aRec tu1 tu2 t1 t2) r1 res1)
        r2 res2) res1 = .ok b1)
    (hF2 : formatToolResult procCwd
      (c1QueueSecond (c1QueueFirst (c1RegisterUses ctx0 aRec tu1 tu2 t1 t2) r1 res1)
        r2 res2) res2 = .ok b2) :
    formatterStep procCwd ctx0 msgs idx aRec =
      .ok ([], c1RegisterUses ctx0 aRec tu1 tu2 t1 t2) ∧
    formatterStep procCwd (c1RegisterUses ctx0 aRec tu1 tu2 t1 t2) msgs (idx + 1) r1 =
      .ok ([], c1QueueFirst (c1RegisterUses ctx0 aRec tu1 tu2 t1 t2) r1 res1) ∧
    formatterStep procCwd (c1QueueFirst (c1RegisterUses ctx0 aRec tu1 tu2 t1 t2) r1 res1)
        msgs (idx + 2) r2 =
      .ok (b1 ++ b2,
        flushedCtx (c1QueueSecond
          (c1QueueFirst (c1RegisterUses ctx0 aRec tu1 tu2 t1 t2) r1 res1) r2 res2)) := by
  have hr2cont : recContent r2 = .inr [res2] := by
    unfold recContent
    rw [h2msg]
  set ctxA := c1RegisterUses ctx0 aRec tu1 tu2 t1 t2 with hctxA
  set ctxB := c1QueueFirst ctxA r1 res1 with hctxB
  set ctxC := c1QueueSecond ctxB r2 res2 with hctxC
  have hApend : ctxA.pendingToolResults = [] := by
    rw [hctxA]
    show (cwdUpdate ctx0 aRec).pendingToolResults = []
    rw [(cwdUpdate_fields ctx0 aRec).2.1, hpend]
  have hBpend : ctxB.pendingToolResults = [res1] := by
    rw [hctxB]
    show (cwdUpdate ctxA r1).pendingToolResults ++ [res1] = [res1]
    rw [(cwdUpdate_fields ctxA r1).2.1, hApend]
    rfl
  have hCpend : ctxC.pendingToolResults = [res1, res2] := by
    rw [hctxC]
    show (cwdUpdate ctxB r2).pendingToolResults ++ [res2] = [res1, res2]
    rw [(cwdUpdate_fields ctxB r2).2.1, hBpend]
    rfl
  refine ⟨?_, ?_, ?_⟩
  -- Step 1: the assistant record queues the uses and renders nothing.
  · have hPA : processMessage ctx0 aRec = .ok ([], ctxA) := by
      rw [hctxA]
      have hApiF : isApiError aRec = false := hAapi
      have hCA : isContentArray aRec = true := by
        unfold isContentArray; rw [hAcont]
      unfold processMessage processAssistantMessage handleAssistantArrayContent
        c1RegisterUses getToolUses
      rw [hAtype, hAcont]
      simp [hApiF, hCA, htu1, htu2, hid1, hid2, ht1, ht2]
    unfold formatterStep
    simp only [hPA, except_bind_ok]
    rw [show ctxA.pendingToolResults.isEmpty = true by rw [hApend]; rfl]
    simp only [if_true, reduceIte]
  -- Step 2: the first result record queues its result and defers.
  · have hPB : processMessage ctxA r1 = .ok ([], ctxB) := by
      rw [hctxB]
      have hCaveat : isCaveatMessage r1 = false := by
        unfold isCaveatMessage; rw [h1meta]; rfl
      have hApiF : isApiError r1 = false := h1api
      have hCA : isContentArray r1 = true := by
        unfold isContentArray; rw [h1cont]
      have hTR : getToolResults r1 = [res1] := by
        unfold getToolResults; rw [h1cont]; simp [hres1]
      have hRC : getRegularContent r1 = [] := by
        unfold getRegularContent; rw [h1cont]; simp [hres1]
      unfold processMessage processUserMessage handleArrayMessage
        handleToolResults c1QueueFirst
      rw [h1type, hTR, hRC]
      simp [hCaveat, hApiF, h1meta, hCA, herr1, except_bind_ok]
    unfold formatterStep
    simp only [hPB, except_bind_ok]
    rw [show ctxB.pendingToolResults.isEmpty = false by rw [hBpend]; rfl]
    simp only [Bool.false_eq_true, if_false, reduceIte]
    have hNext1 : hasToolResultsNext msgs (idx + 1) = true := by
      unfold hasToolResultsNext
      rw [show idx + 1 + 1 = idx + 2 from rfl]
      simp only [hGet2]
      simp [h2type, h2msg, hres2]
    rw [hNext1]
    simp only [if_true, reduceIte]
  -- Step 3: the second result record queues its result and flushes both.
  · have hPC : processMessage ctxB r2 = .ok ([], ctxC) := by
      rw [hctxC]
      have hCaveat : isCaveatMessage r2 = false := by
        unfold isCaveatMessage; rw [h2meta]; rfl
      have hApiF : isApiError r2 = false := h2api
      have hCA : isContentArray r2 = true := by
        unfold isContentArray; rw [hr2cont]
      have hTR : getToolResults r2 = [res2] := by
        unfold getToolResults; rw [hr2cont]; simp [hres2]
      have hRC : getRegularContent r2 = [] := by
        unfold getRegularContent; rw [hr2cont]; simp [hres2]
      unfold processMessage processUserMessage handleArrayMessage
        handleToolResults c1QueueSecond
      rw [h2type, hTR, hRC]
      simp [hCaveat, hApiF, h2meta, hCA, herr2, except_bind_ok]
    unfold formatterStep
    simp only [hPC, except_bind_ok]
    rw [show ctxC.pendingToolResults.isEmpty = false by rw [hCpend]; rfl]
    simp only [Bool.false_eq_true, if_false, reduceIte]
    rw [hNext]
    simp only [Bool.false_eq_true, if_false, reduceIte]
    rw [hCpend]
    have hFTR : formatToolResults procCwd ctxC [res1, res2] = .ok (b1 ++ b2) := by
      unfold formatToolResults
      rw [hF1, except_bind_ok]
      unfold formatToolResults
      rw [hF2, except_bind_ok]
      unfold formatToolResults
      rw [except_bind_ok]
      simp only [List.append_nil]
      rfl
    rw [hFTR, except_bind_ok]
    rfl

/-- Witness for C1: a concrete three-record batch run end to end. -/
theorem c1_witness :
    formatterStep "/" initialCtx c1wMsgs 0 c1wA =
      .ok ([], c1RegisterUses initialCtx c1wA c1wTu1 c1wTu2 "t1" "t2") ∧
    formatterStep "/" (c1RegisterUses initialCtx c1wA c1wTu1 c1wTu2 "t1" "t2")
        c1wMsgs 1 c1wR1 =
      .ok ([], c1QueueFirst (c1RegisterUses initialCtx c1wA c1wTu1 c1wTu2 "t1" "t2")
        c1wR1 c1wRes1) ∧
    formatterStep "/" (c1QueueFirst (c1RegisterUses initialCtx c1wA c1wTu1 c1wTu2 "t1" "t2")
        c1wR1 c1wRes1) c1wMsgs 2 c1wR2 =
      .ok (c1wB1 ++ c1wB2, flushedCtx c1wCtxC) :=
  c1_coalesces_tool_results "/" initialCtx c1wMsgs 0 c1wA c1wR1 c1wR2
    c1wTu1 c1wTu2 c1wRes1 c1wRes2 "t1" "t2" "user" c1wB1 c1wB2
    rfl rfl rfl rfl rfl (by decide) rfl rfl (by decide)
    rfl rfl rfl rfl rfl rfl
    rfl rfl rfl rfl rfl rfl
    rfl rfl rfl rfl rfl

/-- Claim C9: conversion is deterministic and repetition-stable.
`convertSession` discards the incoming context (the reset runs first), so
the conversion of a record list does not depend on the caller's context at
all, and re-converting the same record list starting from the context the
first conversion left behind yields the byte-identical Markdown. -/
theorem c9_repetition_stable (procCwd : String) (ctxA ctxB : Ctx) (s : Session)
    (md1 : String) (ctx1 : Ctx)
    (h : convertSession procCwd ctxA s = .ok (md1, ctx1)) :
    convertSession procCwd ctxB s = convertSession procCwd ctxA s ∧
    convertSession procCwd ctx1 s = .ok (md1, ctx1) :=
  ⟨rfl, h⟩

/-- Witness for C9: a concrete session converted from a clean and from a
deliberately dirty context. -/
theorem c9_witness :
    convertSession "/" c9wDirtyCtx c9wSession =
      convertSession "/" initialCtx c9wSession ∧
    convertSession "/" c9wOut.2 c9wSession = .ok (c9wOut.1, c9wOut.2) :=
  c9_repetition_stable "/" initialCtx c9wDirtyCtx c9wSession c9wOut.1 c9wOut.2 rfl

theorem chunkSlicesFrom_nil (msgs : List Record) (start : Nat) :
    chunkSlicesFrom msgs start [] =
      if start < msgs.length then [msgs.drop start] else [] := by
  unfold chunkSlicesFrom
  by_cases hs : start < msgs.length
  · simp only [List.map_nil, List.getLastD_cons, List.getLastD_nil, List.nil_append,
      hs, if_true, reduceIte, List.zip_cons_cons, List.zip_nil_right, List.map_cons,
      List.map_nil]
    rw [← List.length_drop, List.take_length]
  · simp [hs]

theorem chunkSlicesFrom_cons (msgs : List Record) (start i : Nat) (rest : List Nat) :
    chunkSlicesFrom msgs start (i :: rest) =
      (msgs.drop start).take (i + 1 - start) :: chunkSlicesFrom msgs (i + 1) rest := by
  unfold chunkSlicesFrom
  simp only [List.map_cons, List.getLastD_cons, List.cons_append,
    List.zip_cons_cons, List.map_cons]

theorem chunkIdsFrom_succ (baseId : String) (counter K : Nat) :
    chunkIdsFrom baseId counter (K + 1) =
      (if counter = 0 then baseId else baseId ++ "_" ++ toString counter) ::
        chunkIdsFrom baseId (counter + 1) K := by
  unfold chunkIdsFrom
  rw [List.range_succ_eq_map]
  simp only [List.map_cons, Nat.add_zero, List.map_map]
  congr 1
  apply List.map_congr_left
  intro j _
  simp only [Function.comp_apply]
  have h1 : ¬ counter + (j + 1) = 0 := by omega
  have h2 : ¬ counter + 1 + j = 0 := by omega
  have h3 : counter + (j + 1) = counter + 1 + j := by omega
  simp only [Nat.succ_eq_add_one, h1, h2, if_false, reduceIte, h3]

theorem chunkLoop_spec (baseId : String) (msgs : List Record) :
    ∀ (idxs : List Nat) (start counter : Nat), (idxs = [] → 0 < counter) →
    chunkLoop baseId msgs idxs start counter =
      (chunkIdsFrom baseId counter (chunkSlicesFrom msgs start idxs).length).zip
        (chunkSlicesFrom msgs start idxs)
  | [], start, counter, h => by
    unfold chunkLoop
    rw [chunkSlicesFrom_nil]
    by_cases hs : start < msgs.length
    · have hc : ¬ counter = 0 := Nat.pos_iff_ne_zero.mp (h rfl)
      simp [hs, chunkIdsFrom, hc, List.range_succ]
    · simp [hs, chunkIdsFrom]
  | i :: rest, start, counter, h => by
    unfold chunkLoop
    rw [chunkSlicesFrom_cons, List.length_cons, chunkIdsFrom_succ,
      List.zip_cons_cons,
      chunkLoop_spec baseId msgs rest (i + 1) (counter + 1)
        (fun _ => Nat.succ_pos counter)]

/-- Claim C4: with boundary records present, `splitSessionBySummaries`
produces exactly the spec's chunks: the slices `[0..i1]`, `[i1+1..i2]`, …,
with a trailing `[ik+1..end]` slice only when records remain after the
last boundary, paired with the ids `baseId`, `baseId_1`, `baseId_2`, …;
moreover the boundary indices are strictly increasing and are exactly the
positions of records whose uuid keys the summary lookup table. -/
theorem c4_split_at_boundaries (leafs : List (String × String)) (baseId : String)
    (msgs : List Record) (h : boundaryIndices leafs msgs ≠ []) :
    splitSessionBySummaries leafs baseId msgs =
      (chunkIdsFrom baseId 0
          (chunkSlicesFrom msgs 0 (boundaryIndices leafs msgs)).length).zip
        (chunkSlicesFrom msgs 0 (boundaryIndices leafs msgs)) ∧
    (boundaryIndices leafs msgs).Pairwise (· < ·) ∧
    (∀ i, i ∈ boundaryIndices leafs msgs ↔
      ∃ m, msgs.get? i = some m ∧ isBoundary leafs m = true) := by
  refine ⟨?_, ?_, ?_⟩
  · simp only [splitSessionBySummaries]
    rw [show (boundaryIndices leafs msgs).isEmpty = false by
      cases hb : boundaryIndices leafs msgs with
      | nil => exact absurd hb h
      | cons a l => rfl]
    simp only [Bool.false_eq_true, if_false, reduceIte]
    exact chunkLoop_spec baseId msgs (boundaryIndices leafs msgs) 0 0
      (fun he => absurd he h)
  · exact List.Pairwise.sublist (List.filter_sublist _) (List.pairwise_lt_range _)
  · intro i
    unfold boundaryIndices
    rw [List.mem_filter, List.mem_range]
    cases hg : msgs.get? i with
    | none =>
      have hlen : msgs.length ≤ i := List.get?_eq_none.mp hg
      simp only [hg]
      constructor
      · rintro ⟨hlt, -⟩; omega
      · rintro ⟨m, hm, -⟩; exact absurd hm (by simp)
    | some m =>
      have hlt : i < msgs.length := by
        by_contra hge
        rw [List.get?_eq_none.mpr (by omega)] at hg
        exact Option.noConfusion hg
      simp only [hg]
      constructor
      · rintro ⟨-, hb⟩; exact ⟨m, rfl, hb⟩
      · rintro ⟨m2, hm2, hb2⟩
        obtain rfl : m = m2 := by injection hm2
        exact ⟨hlt, hb2⟩

/-- Witness for C4: a four-record bucket with boundaries at indices 1 and
3 (the last record), so the split is two chunks and no trailing chunk. -/
theorem c4_witness :
    splitSessionBySummaries c4wLeafs "base" c4wMsgs =
      (chunkIdsFrom "base" 0
          (chunkSlicesFrom c4wMsgs 0 (boundaryIndices c4wLeafs c4wMsgs)).length).zip
        (chunkSlicesFrom c4wMsgs 0 (boundaryIndices c4wLeafs c4wMsgs)) ∧
    (boundaryIndices c4wLeafs c4wMsgs).Pairwise (· < ·) ∧
    (∀ i, i ∈ boundaryIndices c4wLeafs c4wMsgs ↔
      ∃ m, c4wMsgs.get? i = some m ∧ isBoundary c4wLeafs m = true) :=
  c4_split_at_boundaries c4wLeafs "base" c4wMsgs (by decide)

theorem psmSummary_mc (leafs : List (String × String)) (s : Session)
    (data : Record) :
    (psmSummary leafs s data).messages = s.messages ∧
    (psmSummary leafs s data).messageCount = s.messageCount := by
  unfold psmSummary
  cases data.uuid with
  | none => exact ⟨rfl, rfl⟩
  | some u =>
    dsimp only
    split_ifs with h
    · exact ⟨rfl, rfl⟩
    · exact ⟨rfl, rfl⟩

theorem psmTs1_mc (ts : String) (s : Session) :
    (psmTs1 ts s).messages = s.messages ∧
    (psmTs1 ts s).messageCount = s.messageCount := by
  unfold psmTs1
  cases s.firstTimestamp <;> exact ⟨rfl, rfl⟩

theorem psmTs3_mc (d : Option Int) (s : Session) :
    (psmTs3 d s).messages = s.messages ∧
    (psmTs3 d s).messageCount = s.messageCount := by
  unfold psmTs3
  split_ifs with h <;> exact ⟨rfl, rfl⟩

theorem psmTs4_mc (d : Option Int) (s : Session) :
    (psmTs4 d s).messages = s.messages ∧
    (psmTs4 d s).messageCount = s.messageCount := by
  unfold psmTs4
  split_ifs with h <;> exact ⟨rfl, rfl⟩

theorem psmTimestamps_mc (jsParse : String → Option Int) (s : Session)
    (data : Record) :
    (psmTimestamps jsParse s data).messages = s.messages ∧
    (psmTimestamps jsParse s data).messageCount = s.messageCount := by
  unfold psmTimestamps
  cases data.timestamp with
  | none => exact ⟨rfl, rfl⟩
  | some ts =>
    have base := psmTs1_mc ts s
    dsimp only
    split_ifs with h1 h2
    · obtain ⟨a3, b3⟩ := psmTs3_mc (parseTimestamp jsParse ts) (psmTs2 ts (psmTs1 ts s))
      obtain ⟨a4, b4⟩ := psmTs4_mc (parseTimestamp jsParse ts)
        (psmTs3 (parseTimestamp jsParse ts) (psmTs2 ts (psmTs1 ts s)))
      exact ⟨by rw [a4, a3]; exact base.1, by rw [b4, b3]; exact base.2⟩
    · exact ⟨base.1, base.2⟩
    · exact ⟨rfl, rfl⟩

theorem psmGenerated_mc (s : Session) (data : Record) :
    (psmGenerated s data).messages = s.messages ∧
    (psmGenerated s data).messageCount = s.messageCount := by
  unfold psmGenerated
  split_ifs with h
  · cases extractSummaryFromMessage data with
    | none => exact ⟨rfl, rfl⟩
    | some sum =>
      dsimp only
      split_ifs with h2
      · exact ⟨rfl, rfl⟩
      · exact ⟨rfl, rfl⟩
  · exact ⟨rfl, rfl⟩

theorem psmCount_mc (s : Session) (data : Record) :
    (psmCount s data).messages = s.messages ∧
    (psmCount s data).messageCount =
      s.messageCount + (if isCounted data then 1 else 0) := by
  unfold psmCount
  by_cases h : data.type = "user" ∨ data.type = "assistant"
  · have hb : isCounted data = true := by
      unfold isCounted; rcases h with h | h <;> simp [h]
    rw [if_pos h, hb]
    exact ⟨rfl, by simp⟩
  · have hb : isCounted data = false := by
      unfold isCounted
      simp only [not_or] at h
      simp [h.1, h.2]
    rw [if_neg h, hb]
    exact ⟨rfl, by simp⟩

theorem psm_messages_count (jsParse : String → Option Int)
    (leafs : List (String × String)) (s : Session) (r : Record) :
    (processSessionMessage jsParse leafs s r).messages = s.messages ++ [r] ∧
    (processSessionMessage jsParse leafs s r).messageCount =
      s.messageCount + (if isCounted r then 1 else 0) := by
  unfold processSessionMessage
  obtain ⟨m1, c1⟩ := psmCount_mc
    (psmGenerated (psmTimestamps jsParse (psmSummary leafs (psmPush s r) r) r) r) r
  obtain ⟨m2, c2⟩ := psmGenerated_mc
    (psmTimestamps jsParse (psmSummary leafs (psmPush s r) r) r) r
  obtain ⟨m3, c3⟩ := psmTimestamps_mc jsParse (psmSummary leafs (psmPush s r) r) r
  obtain ⟨m4, c4⟩ := psmSummary_mc leafs (psmPush s r) r
  constructor
  · rw [m1, m2, m3, m4]; rfl
  · rw [c1, c2, c3, c4]; rfl

theorem buildSession_fold (jsParse : String → Option Int)
    (leafs : List (String × String)) :
    ∀ (msgs : List Record) (s : Session),
    (msgs.foldl (processSessionMessage jsParse leafs) s).messages =
      s.messages ++ msgs ∧
    (msgs.foldl (processSessionMessage jsParse leafs) s).messageCount =
      s.messageCount + msgs.countP (fun r => isCounted r)
  | [], s => by simp
  | r :: msgs, s => by
    obtain ⟨hm, hc⟩ :=
      buildSession_fold jsParse leafs msgs (processSessionMessage jsParse leafs s r)
    obtain ⟨hm1, hc1⟩ := psm_messages_count jsParse leafs s r
    rw [List.foldl_cons]
    refine ⟨by rw [hm, hm1]; simp, ?_⟩
    rw [hc, hc1, List.countP_cons]
    by_cases hr : isCounted r <;> simp [hr] <;> omega

theorem assocSet_fresh {α : Type} (l : List (String × α)) (k : String) (v : α)
    (h : ∀ p ∈ l, ¬ p.1 = k) : assocSet l k v = l ++ [(k, v)] := by
  unfold assocSet
  rw [show l.any (fun p => p.1 == k) = false by
    rw [List.any_eq_false]; intro p hp; simpa using h p hp]
  simp

theorem createSession_fresh (jsParse : String → Option Int)
    (leafs : List (String × String)) (sessions : List (String × Session))
    (id : String) (msgs : List Record)
    (hcnt : 0 < msgs.countP (fun r => isCounted r))
    (hfresh : ∀ p ∈ sessions, ¬ p.1 = id) :
    createSession jsParse leafs sessions id msgs =
      sessions ++ [(id, buildSession jsParse leafs id msgs)] := by
  have hne : msgs.isEmpty = false := by
    cases msgs with
    | nil => simp at hcnt
    | cons a l => rfl
  have hpos : (msgs.foldl (processSessionMessage jsParse leafs)
      { id := id }).messageCount > 0 := by
    rw [(buildSession_fold jsParse leafs msgs { id := id }).2]
    simpa using hcnt
  unfold createSession
  rw [hne]
  simp only [Bool.false_eq_true, if_false, reduceIte]
  rw [if_pos hpos]
  exact assocSet_fresh sessions id _ hfresh

theorem foldl_flatMap_eq {α β γ : Type} (g : α → List β) (f : γ → β → γ) :
    ∀ (l : List α) (init : γ),
    (l.flatMap g).foldl f init = l.foldl (fun acc a => (g a).foldl f acc) init
  | [], _ => rfl
  | a :: l, init => by
    rw [List.flatMap_cons, List.foldl_append, List.foldl_cons,
      foldl_flatMap_eq g f l]

theorem chunkLoop_flat (baseId : String) (msgs : List Record) :
    ∀ (idxs : List Nat) (start c : Nat), idxs.Pairwise (· < ·) →
    (∀ j ∈ idxs, start ≤ j + 1) →
    (chunkLoop baseId msgs idxs start c).flatMap (fun q => q.2) =
      msgs.drop start
  | [], start, c, _, _ => by
    unfold chunkLoop
    by_cases hs : start < msgs.length
    · simp [hs]
    · rw [if_neg hs]
      rw [List.drop_eq_nil_of_le (by omega)]
      rfl
  | i :: rest, start, c, hp, hle => by
    unfold chunkLoop
    rw [List.flatMap_cons]
    rw [chunkLoop_flat baseId msgs rest (i + 1) (c + 1)
      (List.pairwise_cons.mp hp).2
      (fun j hj => by have := (List.pairwise_cons.mp hp).1 j hj; omega)]
    have h1 : start ≤ i + 1 := hle i (by simp)
    rw [show msgs.drop (i + 1) = (msgs.drop start).drop (i + 1 - start) by
      rw [List.drop_drop]; congr 1; omega]
    exact List.take_append_drop _ _

theorem split_flat (leafs : List (String × String)) (sid : String)
    (bucket : List Record) :
    (splitSessionBySummaries leafs sid bucket).flatMap (fun q => q.2) = bucket := by
  simp only [splitSessionBySummaries]
  by_cases hb : (boundaryIndices leafs bucket).isEmpty
  · rw [if_pos hb]
    simp
  · rw [if_neg hb]
    rw [chunkLoop_flat sid bucket (boundaryIndices leafs bucket) 0 0
      (List.Pairwise.sublist (List.filter_sublist _) (List.pairwise_lt_range _))
      (fun j _ => Nat.zero_le _)]
    exact List.drop_zero bucket

theorem map_update_id (sid : String) (r : Record) :
    ∀ (groups : List (String × List Record)),
    (∀ p ∈ groups, (p.1 == sid) = false) →
    groups.map (fun p => if p.1 == sid then (p.1, p.2 ++ [r]) else p) = groups
  | [], _ => rfl
  | p :: gs, h => by
    rw [List.map_cons, map_update_id sid r gs (fun q hq => h q (by simp [hq]))]
    rw [h p (by simp)]
    simp

theorem flat_update_perm (sid : String) (r : Record) :
    ∀ (groups : List (String × List Record)),
    (groups.map Prod.fst).Nodup →
    groups.any (fun p => p.1 == sid) = true →
    ((groups.map (fun p => if p.1 == sid then (p.1, p.2 ++ [r]) else p)).flatMap
        (fun p => p.2)).Perm
      ((groups.flatMap (fun p => p.2)) ++ [r])
  | [], _, hany => by simp at hany
  | p :: gs, hnd, hany => by
    rw [List.map_cons, List.flatMap_cons, List.flatMap_cons]
    by_cases hps : (p.1 == sid) = true
    · rw [if_pos hps]
      have hsid : p.1 = sid := by simpa using hps
      have hgs : ∀ q ∈ gs, (q.1 == sid) = false := by
        intro q hq
        have hne : q.1 ≠ p.1 := by
          intro he
          exact (List.nodup_cons.mp (by simpa using hnd)).1
            (he ▸ List.mem_map_of_mem Prod.fst hq)
        rw [hsid] at hne
        simp [hne]
      rw [map_update_id sid r gs hgs]
      have e1 : (p.2 ++ [r]) ++ gs.flatMap (fun p => p.2) =
          p.2 ++ ([r] ++ gs.flatMap (fun p => p.2)) := by simp [List.append_assoc]
      have e2 : (p.2 ++ gs.flatMap (fun p => p.2)) ++ [r] =
          p.2 ++ (gs.flatMap (fun p => p.2) ++ [r]) := by simp [List.append_assoc]
      rw [e1, e2]
      exact List.Perm.append_left _ List.perm_append_comm
    · rw [if_neg hps]
      have hany2 : gs.any (fun p => p.1 == sid) = true := by
        rw [List.any_cons] at hany
        simpa [hps] using hany
      have ih := flat_update_perm sid r gs
        (List.nodup_cons.mp (by simpa using hnd)).2 hany2
      have e2 : (p.2 ++ gs.flatMap (fun p => p.2)) ++ [r] =
          p.2 ++ (gs.flatMap (fun p => p.2) ++ [r]) := by simp [List.append_assoc]
      rw [e2]
      exact List.Perm.append_left _ ih

theorem appendToGroup_flat_perm (groups : List (String × List Record))
    (sid : String) (r : Record) (hnd : (groups.map Prod.fst).Nodup) :
    ((appendToGroup groups sid r).flatMap (fun p => p.2)).Perm
      ((groups.flatMap (fun p => p.2)) ++ [r]) := by
  unfold appendToGroup
  by_cases hany : groups.any (fun p => p.1 == sid) = true
  · rw [if_pos hany]
    exact flat_update_perm sid r groups hnd hany
  · rw [if_neg hany]
    rw [List.flatMap_append]
    simp only [List.flatMap_cons, List.flatMap_nil, List.append_nil]
    exact List.Perm.refl _

theorem appendToGroup_keys (groups : List (String × List Record))
    (sid : String) (r : Record) (hnd : (groups.map Prod.fst).Nodup) :
    ((appendToGroup groups sid r).map Prod.fst).Nodup := by
  unfold appendToGroup
  by_cases hany : groups.any (fun p => p.1 == sid) = true
  · rw [if_pos hany]
    rw [List.map_map]
    rw [List.map_congr_left (fun (p : String × List Record) _ => by
      simp only [Function.comp_apply]
      split <;> rfl)]
    exact hnd
  · rw [if_neg hany]
    rw [List.map_append]
    refine List.Nodup.append hnd (List.nodup_singleton sid) ?_
    intro a ha hb
    simp only [List.map_cons, List.map_nil, List.mem_singleton] at hb
    subst hb
    rw [Bool.not_eq_true, List.any_eq_false] at hany
    rcases List.mem_map.mp ha with ⟨p, hp, hpa⟩
    exact hany p hp (by simp [hpa])

theorem groupFold_perm :
    ∀ (records : List Record) (groups : List (String × List Record)),
    (groups.map Prod.fst).Nodup →
    (((records.foldl (fun groups r =>
        match r.sessionId with
        | some sid => if sid ≠ "" then appendToGroup groups sid r else groups
        | none => groups) groups).map Prod.fst).Nodup ∧
    ((records.foldl (fun groups r =>
        match r.sessionId with
        | some sid => if sid ≠ "" then appendToGroup groups sid r else groups
        | none => groups) groups).flatMap (fun p => p.2)).Perm
      ((groups.flatMap (fun p => p.2)) ++
        records.filter (fun r => hasSessionId r)))
  | [], groups, hnd => ⟨hnd, by simp⟩
  | r :: rs, groups, hnd => by
    rw [List.foldl_cons]
    cases hsid : r.sessionId with
    | none =>
      have hh : hasSessionId r = false := by unfold hasSessionId; rw [hsid]
      obtain ⟨ihnd, ihperm⟩ := groupFold_perm rs groups hnd
      simp only [hsid]
      refine ⟨ihnd, ?_⟩
      rw [List.filter_cons_of_neg (by simp [hh])]
      exact ihperm
    | some sid =>
      by_cases hne : sid ≠ ""
      · have hh : hasSessionId r = true := by
          unfold hasSessionId; rw [hsid]; simpa using hne
        obtain ⟨ihnd, ihperm⟩ := groupFold_perm rs (appendToGroup groups sid r)
          (appendToGroup_keys groups sid r hnd)
        simp only [hsid]
        rw [if_pos hne]
        refine ⟨ihnd, ?_⟩
        rw [List.filter_cons_of_pos (by simp [hh])]
        refine List.Perm.trans ihperm ?_
        have e : groups.flatMap (fun p => p.2) ++
              (r :: rs.filter (fun r => hasSessionId r)) =
            (groups.flatMap (fun p => p.2) ++ [r]) ++
              rs.filter (fun r => hasSessionId r) := by simp
        rw [e]
        exact List.Perm.append_right _ (appendToGroup_flat_perm groups sid r hnd)
      · have hh : hasSessionId r = false := by
          unfold hasSessionId
          rw [hsid]
          simpa using hne
        obtain ⟨ihnd, ihperm⟩ := groupFold_perm rs groups hnd
        simp only [hsid]
        rw [if_neg hne]
        refine ⟨ihnd, ?_⟩
        rw [List.filter_cons_of_neg (by simp [hh])]
        exact ihperm

theorem groupBy_flat_perm (records : List Record) :
    ((groupBySessionId records).flatMap (fun p => p.2)).Perm
      (records.filter (fun r => hasSessionId r)) ∧
    ((groupBySessionId records).map Prod.fst).Nodup := by
  obtain ⟨hnd, hperm⟩ := groupFold_perm records [] (by simp)
  unfold groupBySessionId
  exact ⟨by simpa using hperm, hnd⟩

theorem chunksFold_eq (jsParse : String → Option Int)
    (leafs : List (String × String)) :
    ∀ (cs : List (String × List Record)) (acc : List (String × Session)),
    (∀ p ∈ cs, 0 < p.2.countP (fun r => isCounted r)) →
    ((cs.map Prod.fst).Nodup) →
    (∀ p ∈ cs, ∀ q0 ∈ acc, ¬ q0.1 = p.1) →
    cs.foldl (fun a q => createSession jsParse leafs a q.1 q.2) acc =
      acc ++ cs.map (fun q => (q.1, buildSession jsParse leafs q.1 q.2))
  | [], acc, _, _, _ => by simp
  | q :: cs, acc, h1, h2, h3 => by
    have hnd2 : (cs.map Prod.fst).Nodup := (List.nodup_cons.mp (by simpa using h2)).2
    have hnin : q.1 ∉ cs.map Prod.fst := (List.nodup_cons.mp (by simpa using h2)).1
    have hfresh : ∀ p ∈ cs,
        ∀ q0 ∈ acc ++ [(q.1, buildSession jsParse leafs q.1 q.2)], ¬ q0.1 = p.1 := by
      intro p hp q0 hq0
      rcases List.mem_append.mp hq0 with hq0 | hq0
      · exact h3 p (List.mem_cons_of_mem _ hp) q0 hq0
      · rw [List.mem_singleton] at hq0
        subst hq0
        intro he
        apply hnin
        rw [show q.1 = p.1 from he]
        exact List.mem_map_of_mem Prod.fst hp
    rw [List.foldl_cons,
      createSession_fresh jsParse leafs acc q.1 q.2 (h1 q (List.mem_cons_self _ _))
        (h3 q (List.mem_cons_self _ _)),
      chunksFold_eq jsParse leafs cs _ (fun p hp => h1 p (List.mem_cons_of_mem _ hp))
        hnd2 hfresh]
    simp

theorem flatMap_congr_own {α β : Type} :
    ∀ (l : List α) (f g : α → List β), (∀ a ∈ l, f a = g a) →
    l.flatMap f = l.flatMap g
  | [], _, _, _ => rfl
  | a :: l, f, g, h => by
    rw [List.flatMap_cons, List.flatMap_cons, h a (by simp),
      flatMap_congr_own l f g (fun x hx => h x (by simp [hx]))]

theorem flatMap_map_own {α β γ : Type} :
    ∀ (l : List α) (f : α → β) (g : β → List γ),
    (l.map f).flatMap g = l.flatMap (fun a => g (f a))
  | [], _, _ => rfl
  | a :: l, f, g => by
    rw [List.map_cons, List.flatMap_cons, List.flatMap_cons, flatMap_map_own l f g]

theorem flatMap_assoc_own {α β γ : Type} :
    ∀ (l : List α) (f : α → List β) (g : β → List γ),
    (l.flatMap f).flatMap g = l.flatMap (fun a => (f a).flatMap g)
  | [], _, _ => rfl
  | a :: l, f, g => by
    rw [List.flatMap_cons, List.flatMap_append, List.flatMap_cons,
      flatMap_assoc_own l f g]

/-- Counterexample to C2 as stated: a `system`-typed record carrying a
`sessionId` is grouped into a session whose final message count is zero,
so the session is discarded and re-flattening loses the record. -/
theorem c2_counterexample :
    hasSessionId c2xRec = true ∧
    flattenSessions (parseInput (fun _ => none) [c2xRec]) = [] ∧
    ¬ (flattenSessions (parseInput (fun _ => none) [c2xRec])).Perm
        ([c2xRec].filter (fun r => hasSessionId r)) := by
  refine ⟨rfl, rfl, fun h => ?_⟩
  have hl := h.length_eq
  rw [show flattenSessions (parseInput (fun _ => none) [c2xRec]) = []
    from rfl] at hl
  rw [show ([c2xRec].filter (fun r => hasSessionId r)) = [c2xRec] from rfl] at hl
  simp at hl

/-- Claim C2 (amended): segmenting and re-flattening reproduces the
multiset of `sessionId`-bearing input records, provided every produced
chunk contains at least one counted (`user`/`assistant`) record (otherwise
`createSession` discards the chunk) and the chunk ids are pairwise
distinct (otherwise the id-keyed session map overwrites an earlier chunk). -/
theorem c2_amended_no_loss (jsParse : String → Option Int) (records : List Record)
    (h1 : ∀ p ∈ allChunks records, 0 < p.2.countP (fun r => isCounted r))
    (h2 : ((allChunks records).map Prod.fst).Nodup) :
    (flattenSessions (parseInput jsParse records)).Perm
      (records.filter (fun r => hasSessionId r)) := by
  have hPI : parseInput jsParse records =
      (allChunks records).map (fun q =>
        (q.1, buildSession jsParse (collectSummaries records) q.1 q.2)) := by
    simp only [parseInput]
    rw [← foldl_flatMap_eq
      (fun p => splitSessionBySummaries (collectSummaries records) p.1 p.2)
      (fun acc q => createSession jsParse (collectSummaries records) acc q.1 q.2)
      (groupBySessionId records) []]
    rw [show (groupBySessionId records).flatMap
        (fun p => splitSessionBySummaries (collectSummaries records) p.1 p.2) =
      allChunks records from rfl]
    rw [chunksFold_eq jsParse (collectSummaries records) (allChunks records) []
      h1 h2 (fun p _ q0 hq0 => absurd hq0 (List.not_mem_nil q0))]
    simp
  have hFlat : flattenSessions ((allChunks records).map (fun q =>
      (q.1, buildSession jsParse (collectSummaries records) q.1 q.2))) =
      (allChunks records).flatMap (fun q => q.2) := by
    unfold flattenSessions
    rw [flatMap_map_own]
    refine flatMap_congr_own _ _ _ (fun q _ => ?_)
    show (buildSession jsParse (collectSummaries records) q.1 q.2).messages = q.2
    unfold buildSession
    rw [(buildSession_fold jsParse (collectSummaries records) q.2 { id := q.1 }).1]
    rfl
  have hChunks : (allChunks records).flatMap (fun q => q.2) =
      (groupBySessionId records).flatMap (fun p => p.2) := by
    simp only [allChunks]
    rw [flatMap_assoc_own]
    exact flatMap_congr_own _ _ _
      (fun p _ => split_flat (collectSummaries records) p.1 p.2)
  rw [hPI, hFlat, hChunks]
  exact (groupBy_flat_perm records).1

/-- Witness for C2 (amended): two counted records in two sessions survive
the round trip. -/
theorem c2_witness :
    (flattenSessions (parseInput (fun _ => none) c2wRecords)).Perm
      (c2wRecords.filter (fun r => hasSessionId r)) :=
  c2_amended_no_loss (fun _ => none) c2wRecords (by decide) (by decide)

theorem splitOnChar_cons_eq (c x : Char) (xs : List Char) :
    splitOnChar c (x :: xs) =
      if x = c then [] :: splitOnChar c xs
      else
        match splitOnChar c xs with
        | [] => [[x]]
        | h :: t => (x :: h) :: t := rfl

theorem splitOnChar_ne_nil (c : Char) : ∀ l, splitOnChar c l ≠ []
  | [] => by simp [splitOnChar]
  | x :: xs => by
    rw [splitOnChar_cons_eq]
    by_cases h : x = c
    · simp [h]
    · simp only [h, if_false, reduceIte]
      cases hr : splitOnChar c xs <;> simp

theorem splitOnChar_append (c : Char) : ∀ (xs ys : List Char),
    splitOnChar c (xs ++ c :: ys) = splitOnChar c xs ++ splitOnChar c ys
  | [], ys => by simp [splitOnChar]
  | x :: xs, ys => by
    rw [show x :: xs ++ c :: ys = x :: (xs ++ c :: ys) from rfl]
    rw [splitOnChar_cons_eq c x (xs ++ c :: ys), splitOnChar_cons_eq c x xs]
    by_cases h : x = c
    · simp only [h, if_true, reduceIte, splitOnChar_append c xs ys]
      rfl
    · simp only [h, if_false, reduceIte, splitOnChar_append c xs ys]
      cases hsx : splitOnChar c xs with
      | nil => exact absurd hsx (splitOnChar_ne_nil c xs)
      | cons h0 t0 => simp

theorem splitOnChar_no_delim (c : Char) : ∀ l, ∀ ch ∈ splitOnChar c l, c ∉ ch
  | [], ch, h => by
    simp [splitOnChar] at h
    subst h
    simp
  | x :: xs, ch, h => by
    rw [splitOnChar_cons_eq] at h
    by_cases hx : x = c
    · simp only [hx, if_true, reduceIte, List.mem_cons] at h
      rcases h with rfl | h
      · simp
      · exact splitOnChar_no_delim c xs ch h
    · simp only [hx, if_false, reduceIte] at h
      cases hr : splitOnChar c xs with
      | nil => exact absurd hr (splitOnChar_ne_nil c xs)
      | cons h0 t0 =>
        rw [hr] at h
        simp only [List.mem_cons] at h
        rcases h with rfl | h
        · intro hc
          rcases List.mem_cons.mp hc with rfl | hc
          · exact hx rfl
          · exact splitOnChar_no_delim c xs h0
              (hr ▸ List.mem_cons_self h0 t0) hc
        · exact splitOnChar_no_delim c xs ch (hr ▸ List.mem_cons_of_mem h0 h)

theorem splitOnChar_of_no_delim (c : Char) :
    ∀ (l : List Char), c ∉ l → splitOnChar c l = [l]
  | [], _ => rfl
  | x :: xs, h => by
    rw [splitOnChar_cons_eq]
    have hx : ¬ x = c := fun he => h (he ▸ List.mem_cons_self x xs)
    simp only [hx, if_false, reduceIte,
      splitOnChar_of_no_delim c xs (fun hc => h (List.mem_cons_of_mem x hc))]

theorem joinChar_cons_ne (c : Char) (x : List Char) (y : List Char)
    (ys : List (List Char)) :
    joinChar c (x :: y :: ys) = x ++ c :: joinChar c (y :: ys) := rfl

theorem joinChar_append (c : Char) : ∀ (l1 l2 : List (List Char)),
    l1 ≠ [] → l2 ≠ [] →
    joinChar c (l1 ++ l2) = joinChar c l1 ++ c :: joinChar c l2
  | [], _, h, _ => absurd rfl h
  | [x], l2, _, h2 => by
    cases l2 with
    | nil => exact absurd rfl h2
    | cons y ys => rfl
  | x :: x2 :: xs, l2, _, h2 => by
    have ih := joinChar_append c (x2 :: xs) l2 (by simp) h2
    show joinChar c (x :: (x2 :: xs ++ l2)) = _
    cases hx : x2 :: xs ++ l2 with
    | nil => simp at hx
    | cons z zs =>
      rw [joinChar_cons_ne, ← hx, ih, joinChar_cons_ne]
      simp

theorem splitOnChar_joinChar (c : Char) : ∀ (chunks : List (List Char)),
    chunks ≠ [] → (∀ ch ∈ chunks, c ∉ ch) →
    splitOnChar c (joinChar c chunks) = chunks
  | [], h, _ => absurd rfl h
  | [ch], _, hno => by
    show splitOnChar c ch = [ch]
    exact splitOnChar_of_no_delim c ch (hno ch (by simp))
  | ch :: ch2 :: chunks, _, hno => by
    rw [joinChar_cons_ne, splitOnChar_append,
      splitOnChar_of_no_delim c ch (hno ch (by simp)),
      splitOnChar_joinChar c (ch2 :: chunks) (by simp)
        (fun x hx => hno x (List.mem_cons_of_mem ch hx))]
    rfl

theorem splitSlash_no_slash (p : String) : ∀ s ∈ splitSlash p, '/' ∉ s.data := by
  intro s hs
  rcases List.mem_map.mp hs with ⟨ch, hch, rfl⟩
  exact splitOnChar_no_delim '/' p.data ch hch

theorem map_mk_data (S : List String) : (S.map String.data).map String.mk = S := by
  rw [List.map_map]
  exact (List.map_congr_left (fun s _ => rfl)).trans (List.map_id S)

theorem splitSlash_joinSlash (segs : List String) (h1 : segs ≠ [])
    (h2 : ∀ s ∈ segs, '/' ∉ s.data) : splitSlash (joinSlash segs) = segs := by
  unfold splitSlash joinSlash
  rw [show (String.mk (joinChar '/' (segs.map String.data))).data =
    joinChar '/' (segs.map String.data) from rfl]
  rw [splitOnChar_joinChar '/' (segs.map String.data) (by simpa using h1)
    (fun ch hch => by
      rcases List.mem_map.mp hch with ⟨s, hs, rfl⟩
      exact h2 s hs)]
  exact map_mk_data segs

theorem joinSlash_two (x y : String) :
    joinSlash [x, y] = String.mk (x.data ++ '/' :: y.data) := rfl

theorem splitSlash_mk_append (x y : String) :
    splitSlash (String.mk (x.data ++ '/' :: y.data)) =
      splitSlash x ++ splitSlash y := by
  unfold splitSlash
  rw [show (String.mk (x.data ++ '/' :: y.data)).data =
    x.data ++ '/' :: y.data from rfl]
  rw [splitOnChar_append]
  simp

theorem isAbs_mk_append (x : String) (rest : List Char) (hx : x.data ≠ []) :
    isAbs (String.mk (x.data ++ rest)) = isAbs x := by
  unfold isAbs
  cases hd : x.data with
  | nil => exact absurd hd hx
  | cons a l => simp [hd]

theorem abString_ne : ("a/b.txt" : String) ≠ "" := by decide

theorem absProcess_append (S l1 l2 : List String) :
    absProcess S (l1 ++ l2) = absProcess (absProcess S l1) l2 := by
  unfold absProcess
  exact List.foldl_append absStep S l1 l2

theorem absStep_push (S : List String) (seg : String) (h : normalSeg seg) :
    absStep S seg = S ++ [seg] := by
  obtain ⟨h1, h2, h3⟩ := h
  unfold absStep
  rw [if_neg (by simp [h1, h2]), if_neg h3]

theorem absProcess_pushes : ∀ (segs : List String) (S : List String),
    (∀ x ∈ segs, normalSeg x) → absProcess S segs = S ++ segs
  | [], S, _ => by simp [absProcess]
  | x :: xs, S, h => by
    show absProcess (absStep S x) xs = _
    rw [absStep_push S x (h x (by simp)),
      absProcess_pushes xs (S ++ [x]) (fun y hy => h y (by simp [hy]))]
    simp

theorem popN_succ {α : Type} (d : Nat) (l : List α) :
    (popN d l).dropLast = popN (d + 1) l := rfl

theorem popN_dropLast {α : Type} : ∀ (d : Nat) (l : List α),
    popN d l.dropLast = (popN d l).dropLast
  | 0, _ => rfl
  | d + 1, l => by
    show (popN d l.dropLast).dropLast = (popN (d + 1) l).dropLast
    rw [popN_dropLast d l]
    rfl

theorem absProcess_dots : ∀ (d : Nat) (S : List String),
    absProcess S (List.replicate d "..") = popN d S
  | 0, _ => rfl
  | d + 1, S => by
    rw [List.replicate_succ]
    show absProcess (absStep S "..") (List.replicate d "..") = _
    rw [show absStep S ".." = S.dropLast by unfold absStep; simp]
    rw [absProcess_dots d S.dropLast, popN_dropLast d S, popN_succ]

theorem relProcess_append (st : Nat × List String) (l1 l2 : List String) :
    relProcess st (l1 ++ l2) = relProcess (relProcess st l1) l2 := by
  unfold relProcess
  exact List.foldl_append relStep st l1 l2

theorem relStep_eq (d : Nat) (stk : List String) (seg : String) :
    relStep (d, stk) seg =
      if seg = "" ∨ seg = "." then (d, stk)
      else if seg = ".." then
        match stk with
        | [] => (d + 1, [])
        | _ :: _ => (d, stk.dropLast)
      else (d, stk ++ [seg]) := rfl

theorem relStep_push (d : Nat) (stk : List String) (seg : String)
    (h : normalSeg seg) : relStep (d, stk) seg = (d, stk ++ [seg]) := by
  obtain ⟨h1, h2, h3⟩ := h
  rw [relStep_eq]
  rw [if_neg (by simp [h1, h2]), if_neg h3]

theorem abs_rel_step : ∀ (segs : List String) (d : Nat) (stk S : List String),
    absProcess (popN d S ++ stk) segs =
      popN (relProcess (d, stk) segs).1 S ++ (relProcess (d, stk) segs).2
  | [], _, _, _ => rfl
  | seg :: segs, d, stk, S => by
    show absProcess (absStep (popN d S ++ stk) seg) segs =
      popN (relProcess (relStep (d, stk) seg) segs).1 S ++
        (relProcess (relStep (d, stk) seg) segs).2
    by_cases h1 : seg = "" ∨ seg = "."
    · rw [show absStep (popN d S ++ stk) seg = popN d S ++ stk by
        unfold absStep; rw [if_pos h1]]
      rw [show relStep (d, stk) seg = (d, stk) by
        rw [relStep_eq, if_pos h1]]
      exact abs_rel_step segs d stk S
    · by_cases h2 : seg = ".."
      · cases stk with
        | nil =>
          rw [show absStep (popN d S ++ []) seg = popN (d + 1) S ++ [] by
            unfold absStep
            rw [if_neg h1, if_pos h2]
            simp only [List.append_nil]
            exact popN_succ d S]
          rw [show relStep (d, []) seg = (d + 1, []) by
            rw [relStep_eq, if_neg h1, if_pos h2]]
          exact abs_rel_step segs (d + 1) [] S
        | cons a l =>
          rw [show absStep (popN d S ++ a :: l) seg =
              popN d S ++ (a :: l).dropLast by
            unfold absStep
            rw [if_neg h1, if_pos h2]
            exact List.dropLast_append_of_ne_nil _ (by simp)]
          rw [show relStep (d, a :: l) seg = (d, (a :: l).dropLast) by
            rw [relStep_eq, if_neg h1, if_pos h2]]
          exact abs_rel_step segs d (a :: l).dropLast S
      · have hn : normalSeg seg := ⟨by simpa using (not_or.mp h1).1,
          by simpa using (not_or.mp h1).2, h2⟩
        rw [show absStep (popN d S ++ stk) seg = popN d S ++ (stk ++ [seg]) by
          rw [absStep_push _ seg hn]; simp]
        rw [relStep_push d stk seg hn]
        exact abs_rel_step segs d (stk ++ [seg]) S

theorem absProcess_eq_rel (segs S : List String) :
    absProcess S segs =
      popN (relProcess (0, []) segs).1 S ++ (relProcess (0, []) segs).2 := by
  have h := abs_rel_step segs 0 [] S
  rw [show popN 0 S ++ ([] : List String) = S by simp [popN]] at h
  exact h

theorem absProcess_good : ∀ (segs S : List String),
    (∀ x ∈ S, goodSeg x) → (∀ seg ∈ segs, '/' ∉ seg.data) →
    ∀ x ∈ absProcess S segs, goodSeg x
  | [], _, hS, _, x, hx => hS x hx
  | seg :: segs, S, hS, hsl, x, hx => by
    refine absProcess_good segs (absStep S seg) ?_
      (fun s hs => hsl s (List.mem_cons_of_mem seg hs)) x hx
    intro y hy
    unfold absStep at hy
    by_cases h1 : seg = "" ∨ seg = "."
    · rw [if_pos h1] at hy
      exact hS y hy
    · rw [if_neg h1] at hy
      by_cases h2 : seg = ".."
      · rw [if_pos h2] at hy
        exact hS y ((List.dropLast_sublist _).subset hy)
      · rw [if_neg h2] at hy
        rcases List.mem_append.mp hy with hy | hy
        · exact hS y hy
        · rw [List.mem_singleton] at hy
          subst hy
          exact ⟨⟨by simpa using (not_or.mp h1).1,
            by simpa using (not_or.mp h1).2, h2⟩, hsl y (List.mem_cons_self _ _)⟩

theorem popN_good {S : List String} (hS : ∀ x ∈ S, goodSeg x) :
    ∀ d, ∀ x ∈ popN d S, goodSeg x := by
  intro d
  induction d with
  | zero => exact hS
  | succ d ih =>
    intro x hx
    exact ih x ((List.dropLast_sublist _).subset hx)

theorem relProcess_good : ∀ (segs : List String) (st : Nat × List String),
    (∀ x ∈ st.2, goodSeg x) → (∀ seg ∈ segs, '/' ∉ seg.data) →
    ∀ x ∈ (relProcess st segs).2, goodSeg x
  | [], _, hstk, _, x, hx => hstk x hx
  | seg :: segs, st, hstk, hsl, x, hx => by
    rw [show relProcess st (seg :: segs) =
      relProcess (relStep st seg) segs from rfl] at hx
    refine relProcess_good segs (relStep st seg) ?_
      (fun s hs => hsl s (List.mem_cons_of_mem seg hs)) x hx
    intro y hy
    obtain ⟨d, stk⟩ := st
    rw [relStep_eq] at hy
    by_cases h1 : seg = "" ∨ seg = "."
    · rw [if_pos h1] at hy
      exact hstk y hy
    · rw [if_neg h1] at hy
      by_cases h2 : seg = ".."
      · rw [if_pos h2] at hy
        cases stk with
        | nil => simp at hy
        | cons a l =>
          exact hstk y ((List.dropLast_sublist _).subset hy)
      · rw [if_neg h2] at hy
        rcases List.mem_append.mp hy with hy | hy
        · exact hstk y hy
        · rw [List.mem_singleton] at hy
          subst hy
          exact ⟨⟨by simpa using (not_or.mp h1).1,
            by simpa using (not_or.mp h1).2, h2⟩, hsl y (List.mem_cons_self _ _)⟩

theorem isAbs_renderAbs (S : List String) : isAbs (renderAbs S) = true := rfl

theorem splitSlash_renderAbs (S : List String) (hne : S ≠ [])
    (hg : ∀ x ∈ S, goodSeg x) : splitSlash (renderAbs S) = "" :: S := by
  unfold splitSlash renderAbs
  rw [show (String.mk ('/' :: joinChar '/' (S.map String.data))).data =
    '/' :: joinChar '/' (S.map String.data) from rfl]
  rw [splitOnChar_cons_eq, if_pos rfl]
  rw [splitOnChar_joinChar '/' (S.map String.data) (by simpa using hne)
    (fun ch hch => by
      rcases List.mem_map.mp hch with ⟨s, hs, rfl⟩
      exact (hg s hs).2)]
  rw [List.map_cons, map_mk_data]

theorem resolve_renderAbs (procCwd : String) (S : List String)
    (hg : ∀ x ∈ S, goodSeg x) : resolveSegs procCwd (renderAbs S) = S := by
  unfold resolveSegs
  rw [isAbs_renderAbs]
  simp only [if_true, reduceIte]
  cases S with
  | nil => rfl
  | cons s ss =>
    rw [splitSlash_renderAbs (s :: ss) (by simp) hg]
    show absProcess (absStep [] "") (s :: ss) = s :: ss
    rw [show absStep [] "" = [] by unfold absStep; simp]
    rw [absProcess_pushes (s :: ss) [] (fun x hx => (hg x hx).1)]
    rfl

theorem startsWith_renderAbs (S l : List String) :
    startsWithJs (renderAbs (S ++ l)) (renderAbs S) = true := by
  unfold startsWithJs renderAbs
  rw [List.isPrefixOf_iff_prefix]
  show ('/' :: joinChar '/' (S.map String.data)) <+:
    ('/' :: joinChar '/' ((S ++ l).map String.data))
  rw [List.cons_prefix_cons]
  refine ⟨rfl, ?_⟩
  rw [List.map_append]
  cases hS : S.map String.data with
  | nil => exact List.nil_prefix
  | cons a as =>
    cases hl : l.map String.data with
    | nil => simp
    | cons b bs =>
      rw [joinChar_append '/' (a :: as) (b :: bs) (by simp) (by simp)]
      exact List.prefix_append _ _

theorem startsWith_of_seg_prefixOf (C P : List String) (h : C <+: P) :
    startsWithJs (renderAbs P) (renderAbs C) = true := by
  obtain ⟨l, rfl⟩ := h
  exact startsWith_renderAbs C l

theorem commonLen_self_append : ∀ (f l : List String),
    commonLen f (f ++ l) = f.length
  | [], l => by cases l <;> rfl
  | a :: f, l => by
    show (if a = a then commonLen f (f ++ l) + 1 else 0) = f.length + 1
    rw [if_pos rfl, commonLen_self_append f l]

theorem relativeSegs_self_append (f l : List String) :
    relativeSegs f (f ++ l) = l := by
  unfold relativeSegs
  rw [commonLen_self_append]
  simp [List.drop_left]

theorem commonLen_le : ∀ (f t : List String), commonLen f t ≤ f.length
  | [], t => by cases t <;> simp [commonLen]
  | a :: f, [] => by simp [commonLen]
  | a :: f, b :: t => by
    show (if a = b then commonLen f t + 1 else 0) ≤ f.length + 1
    by_cases h : a = b
    · rw [if_pos h]
      exact Nat.succ_le_succ (commonLen_le f t)
    · rw [if_neg h]
      exact Nat.zero_le _

theorem commonLen_eq_prefixOf : ∀ (f t : List String),
    commonLen f t = f.length → f <+: t
  | [], t, _ => List.nil_prefix
  | a :: f, [], h => by simp [commonLen] at h
  | a :: f, b :: t, h => by
    rw [show commonLen (a :: f) (b :: t) =
      if a = b then commonLen f t + 1 else 0 from rfl] at h
    by_cases hab : a = b
    · rw [if_pos hab] at h
      subst hab
      exact List.cons_prefix_cons.mpr ⟨rfl, commonLen_eq_prefixOf f t (by simpa using h)⟩
    · rw [if_neg hab] at h
      simp at h

theorem startsWith_dotdot (l : List String) :
    startsWithJs (joinSlash (".." :: l)) ".." = true := by
  unfold startsWithJs joinSlash
  rw [List.isPrefixOf_iff_prefix]
  show (".." : String).data <+: joinChar '/' ((".." :: l).map String.data)
  rw [List.map_cons]
  cases hl : l.map String.data with
  | nil => simp [joinChar]
  | cons b bs =>
    rw [joinChar_cons_ne]
    exact List.prefix_append _ _

theorem joinSlash_cons_data (s : String) (rest : List String) :
    ∃ t, (joinSlash (s :: rest)).data = s.data ++ t := by
  cases rest with
  | nil => exact ⟨[], by simp [joinSlash, joinChar]⟩
  | cons y ys =>
    exact ⟨'/' :: joinChar '/' ((y :: ys).map String.data), rfl⟩

theorem joinSlash_head_ne (s : String) (rest : List String) (hs : s.data ≠ []) :
    joinSlash (s :: rest) ≠ "" := by
  obtain ⟨t, ht⟩ := joinSlash_cons_data s rest
  intro he
  have hd : (joinSlash (s :: rest)).data = [] := by simp [he]
  rw [ht] at hd
  rcases List.append_eq_nil.mp hd with ⟨h1, -⟩
  exact hs h1

theorem isAbs_joinSlash_head (s : String) (rest : List String)
    (hs : s.data ≠ []) (hns : '/' ∉ s.data) :
    isAbs (joinSlash (s :: rest)) = false := by
  obtain ⟨t, ht⟩ := joinSlash_cons_data s rest
  unfold isAbs
  rw [ht]
  cases hd : s.data with
  | nil => exact absurd hd hs
  | cons a l =>
    have ha : a ≠ '/' := fun he => hns (by rw [hd, he]; simp)
    simp [ha]

theorem resolveSegs_of_abs (procCwd p : String) (hp : isAbs p = true) :
    resolveSegs procCwd p = absProcess [] (splitSlash p) := by
  unfold resolveSegs
  rw [hp]
  simp only [if_true, reduceIte]

theorem resolveSegs_of_rel (procCwd p : String) (hp : isAbs p = false) :
    resolveSegs procCwd p =
      absProcess (absProcess [] (splitSlash procCwd)) (splitSlash p) := by
  unfold resolveSegs
  rw [hp]
  simp only [Bool.false_eq_true, if_false, reduceIte]
  exact absProcess_append [] (splitSlash procCwd) (splitSlash p)

theorem resolveSegs_good (procCwd p : String) :
    ∀ x ∈ resolveSegs procCwd p, goodSeg x := by
  unfold resolveSegs
  by_cases hp : isAbs p = true
  · rw [hp]
    simp only [if_true, reduceIte]
    exact absProcess_good _ _ (by simp) (splitSlash_no_slash p)
  · rw [Bool.not_eq_true] at hp
    rw [hp]
    simp only [Bool.false_eq_true, if_false, reduceIte]
    refine absProcess_good _ _ (by simp) (fun seg hseg => ?_)
    rcases List.mem_append.mp hseg with h | h
    · exact splitSlash_no_slash procCwd seg h
    · exact splitSlash_no_slash p seg h

theorem renderAbs_ne (S : List String) : renderAbs S ≠ "" := by
  intro h
  have hd := congrArg String.data h
  simp [renderAbs] at hd

theorem str_data_ne (s : String) (h : s ≠ "") : s.data ≠ [] := by
  intro hd
  apply h
  cases s with
  | mk l =>
    have hl : l = [] := hd
    rw [hl]

theorem renderRel_eq_join (d : Nat) (stk : List String)
    (h : List.replicate d ".." ++ stk ≠ []) :
    renderRel d stk = joinSlash (List.replicate d ".." ++ stk) := by
  unfold renderRel
  cases hseg : List.replicate d ".." ++ stk with
  | nil => exact absurd hseg h
  | cons a l => simp only [hseg]

theorem normal_ab : ∀ x ∈ (["a", "b.txt"] : List String), normalSeg x := by
  intro x hx
  rcases List.mem_cons.mp hx with rfl | hx
  · exact ⟨by decide, by decide, by decide⟩
  · rcases List.mem_singleton.mp hx with rfl
    exact ⟨by decide, by decide, by decide⟩

theorem good_ab : ∀ x ∈ (["a", "b.txt"] : List String), goodSeg x := by
  intro x hx
  rcases List.mem_cons.mp hx with rfl | hx
  · exact ⟨⟨by decide, by decide, by decide⟩, by decide⟩
  · rcases List.mem_singleton.mp hx with rfl
    exact ⟨⟨by decide, by decide, by decide⟩, by decide⟩

theorem mrp_of_resolved (procCwd fp cwd : String) (C : List String)
    (hfp : fp ≠ "")
    (hC : ∀ x ∈ C, goodSeg x)
    (h1 : resolveSegs procCwd fp = C ++ ["a", "b.txt"])
    (h2 : resolveSegs procCwd (if cwd = "" then procCwd else cwd) = C) :
    makeRelativePath procCwd (some fp) (some cwd) = "a/b.txt" := by
  have hCl : ∀ x ∈ C ++ ["a", "b.txt"], goodSeg x := by
    intro x hx
    rcases List.mem_append.mp hx with hx | hx
    · exact hC x hx
    · exact good_ab x hx
  have hNP : resolveStr procCwd fp = renderAbs (C ++ ["a", "b.txt"]) := by
    unfold resolveStr
    rw [h1]
  have hNC : resolveStr procCwd (if cwd = "" then procCwd else cwd) =
      renderAbs C := by
    unfold resolveStr
    rw [h2]
  have hrel : pathRelative procCwd (renderAbs C)
      (renderAbs (C ++ ["a", "b.txt"])) = "a/b.txt" := by
    unfold pathRelative
    rw [resolve_renderAbs procCwd C hC, resolve_renderAbs procCwd _ hCl,
      relativeSegs_self_append]
    rfl
  unfold makeRelativePath
  simp [hNP, hNC, startsWith_renderAbs, hrel, hfp]

theorem mrp_far (procCwd fp cwd : String) (C P : List String)
    (hfp : fp ≠ "")
    (hC : ∀ x ∈ C, goodSeg x) (hP : ∀ x ∈ P, goodSeg x)
    (h1 : resolveSegs procCwd fp = P)
    (h2 : resolveSegs procCwd (if cwd = "" then procCwd else cwd) = C)
    (hns : startsWithJs (renderAbs P) (renderAbs C) = false) :
    makeRelativePath procCwd (some fp) (some cwd) =
      joinSlash (relativeSegs C P) ∧
    startsWithJs (makeRelativePath procCwd (some fp) (some cwd)) ".." = true := by
  have hNP : resolveStr procCwd fp = renderAbs P := by
    unfold resolveStr
    rw [h1]
  have hNC : resolveStr procCwd (if cwd = "" then procCwd else cwd) =
      renderAbs C := by
    unfold resolveStr
    rw [h2]
  have hrel : pathRelative procCwd (renderAbs C) (renderAbs P) =
      joinSlash (relativeSegs C P) := by
    unfold pathRelative
    rw [resolve_renderAbs procCwd C hC, resolve_renderAbs procCwd P hP]
  have hmain : makeRelativePath procCwd (some fp) (some cwd) =
      joinSlash (relativeSegs C P) := by
    unfold makeRelativePath
    simp [hNP, hNC, hns, hrel, hfp]
  refine ⟨hmain, ?_⟩
  rw [hmain]
  have hlt : commonLen C P < C.length := by
    rcases Nat.lt_or_ge (commonLen C P) C.length with h | h
    · exact h
    · exfalso
      have heq : commonLen C P = C.length :=
        Nat.le_antisymm (commonLen_le C P) h
      rw [startsWith_of_seg_prefixOf C P (commonLen_eq_prefixOf C P heq)] at hns
      exact Bool.noConfusion hns
  show startsWithJs (joinSlash (List.replicate (C.length - commonLen C P) ".." ++
    P.drop (commonLen C P))) ".." = true
  rw [show C.length - commonLen C P = (C.length - commonLen C P - 1) + 1 by omega]
  rw [List.replicate_succ, List.cons_append]
  exact startsWith_dotdot _

theorem joinSlash_dots_facts (d : Nat) (stk : List String)
    (hstk : ∀ x ∈ stk, goodSeg x) :
    joinSlash (List.replicate d ".." ++ (stk ++ ["a", "b.txt"])) ≠ "" ∧
    isAbs (joinSlash (List.replicate d ".." ++ (stk ++ ["a", "b.txt"]))) = false := by
  cases d with
  | zero =>
    simp only [List.replicate, List.nil_append]
    cases hstk2 : stk with
    | nil =>
      simp only [List.nil_append]
      exact ⟨joinSlash_head_ne "a" _ (by decide),
        isAbs_joinSlash_head "a" _ (by decide) (by decide)⟩
    | cons s ss =>
      rw [List.cons_append]
      have hg := hstk s (hstk2 ▸ List.mem_cons_self s ss)
      exact ⟨joinSlash_head_ne s _ (str_data_ne s hg.1.1),
        isAbs_joinSlash_head s _ (str_data_ne s hg.1.1) hg.2⟩
  | succ n =>
    rw [List.replicate_succ, List.cons_append]
    exact ⟨joinSlash_head_ne ".." _ (by decide),
      isAbs_joinSlash_head ".." _ (by decide) (by decide)⟩

/-- Claim C8: path relativization. With an absolute `process.cwd()`:
(1) the round trip holds for every `cwd` (empty, absolute or relative):
relativizing `join(cwd, "a/b.txt")` against `cwd` yields `"a/b.txt"`;
(2) an absolute path whose resolved form does not start with the resolved
cwd relativizes to the dotted relative form computed by `path.relative`,
which begins with a `".."` segment. (The source's catch-and-return-input
fallback is dead code for string inputs: no modelled path operation
throws, so the conversion is total by construction.) -/
theorem c8_path_relativization (procCwd : String) (hAbs : isAbs procCwd = true) :
    (∀ cwd : String,
      makeRelativePath procCwd (some (joinPaths2 cwd "a/b.txt")) (some cwd) =
        "a/b.txt") ∧
    (∀ fp cwd : String, isAbs fp = true → fp ≠ "" →
      startsWithJs (resolveStr procCwd fp)
        (resolveStr procCwd (if cwd = "" then procCwd else cwd)) = false →
      makeRelativePath procCwd (some fp) (some cwd) =
        joinSlash (relativeSegs
          (resolveSegs procCwd (if cwd = "" then procCwd else cwd))
          (resolveSegs procCwd fp)) ∧
      startsWithJs (makeRelativePath procCwd (some fp) (some cwd)) ".." = true) := by
  have hS0g : ∀ x ∈ absProcess [] (splitSlash procCwd), goodSeg x :=
    absProcess_good _ _ (by simp) (splitSlash_no_slash procCwd)
  constructor
  · intro cwd
    by_cases hcwd : cwd = ""
    · subst hcwd
      refine mrp_of_resolved procCwd _ "" (absProcess [] (splitSlash procCwd))
        (by decide) hS0g ?_ ?_
      · rw [show joinPaths2 "" "a/b.txt" = "a/b.txt" from rfl,
          resolveSegs_of_rel procCwd "a/b.txt" (by decide),
          show splitSlash "a/b.txt" = ["a", "b.txt"] from rfl]
        exact absProcess_pushes ["a", "b.txt"] _ normal_ab
      · rw [if_pos rfl]
        exact resolveSegs_of_abs procCwd procCwd hAbs
    · have hdata : cwd.data ≠ [] := str_data_ne cwd hcwd
      have hJP : joinPaths2 cwd "a/b.txt" =
          normalizePathJs (String.mk (cwd.data ++ '/' :: "a/b.txt".data)) := by
        unfold joinPaths2
        rw [show List.filter (fun x => x ≠ "") [cwd, "a/b.txt"] =
          [cwd, "a/b.txt"] by simp [hcwd]]
        rw [joinSlash_two]
      have hsplit2 : splitSlash (String.mk (cwd.data ++ '/' :: "a/b.txt".data)) =
          splitSlash cwd ++ ["a", "b.txt"] := by
        rw [splitSlash_mk_append cwd "a/b.txt"]
        rfl
      have habsj : isAbs (String.mk (cwd.data ++ '/' :: "a/b.txt".data)) =
          isAbs cwd := isAbs_mk_append cwd ('/' :: "a/b.txt".data) hdata
      by_cases habs : isAbs cwd = true
      · have hCg : ∀ x ∈ absProcess [] (splitSlash cwd), goodSeg x :=
          absProcess_good _ _ (by simp) (splitSlash_no_slash cwd)
        have hClg : ∀ x ∈ absProcess [] (splitSlash cwd) ++ ["a", "b.txt"],
            goodSeg x := by
          intro x hx
          rcases List.mem_append.mp hx with hx | hx
          · exact hCg x hx
          · exact good_ab x hx
        have hX : joinPaths2 cwd "a/b.txt" =
            renderAbs (absProcess [] (splitSlash cwd) ++ ["a", "b.txt"]) := by
          rw [hJP]
          unfold normalizePathJs
          rw [habsj, habs]
          simp only [if_true, reduceIte]
          rw [hsplit2, absProcess_append,
            absProcess_pushes ["a", "b.txt"] _ normal_ab]
        refine mrp_of_resolved procCwd _ cwd (absProcess [] (splitSlash cwd))
          ?_ hCg ?_ ?_
        · rw [hX]
          exact renderAbs_ne _
        · rw [hX]
          exact resolve_renderAbs procCwd _ hClg
        · rw [if_neg hcwd]
          exact resolveSegs_of_abs procCwd cwd habs
      · rw [Bool.not_eq_true] at habs
        have hstkg : ∀ x ∈ (relProcess (0, []) (splitSlash cwd)).2, goodSeg x :=
          relProcess_good _ (0, []) (by simp) (splitSlash_no_slash cwd)
        have hCg : ∀ x ∈ popN (relProcess (0, []) (splitSlash cwd)).1
            (absProcess [] (splitSlash procCwd)) ++
            (relProcess (0, []) (splitSlash cwd)).2, goodSeg x := by
          intro x hx
          rcases List.mem_append.mp hx with hx | hx
          · exact popN_good hS0g _ x hx
          · exact hstkg x hx
        have hpush : relProcess (relProcess (0, []) (splitSlash cwd))
            ["a", "b.txt"] =
            ((relProcess (0, []) (splitSlash cwd)).1,
             (relProcess (0, []) (splitSlash cwd)).2 ++ ["a", "b.txt"]) := by
          show relStep (relStep ((relProcess (0, []) (splitSlash cwd)).1,
            (relProcess (0, []) (splitSlash cwd)).2) "a") "b.txt" = _
          rw [relStep_push _ _ "a" ⟨by decide, by decide, by decide⟩,
            relStep_push _ _ "b.txt" ⟨by decide, by decide, by decide⟩]
          simp
        have hXrel : relProcess (0, [])
            (splitSlash (String.mk (cwd.data ++ '/' :: "a/b.txt".data))) =
            ((relProcess (0, []) (splitSlash cwd)).1,
             (relProcess (0, []) (splitSlash cwd)).2 ++ ["a", "b.txt"]) := by
          rw [hsplit2, relProcess_append, hpush]
        have hsegs_ne : List.replicate (relProcess (0, []) (splitSlash cwd)).1
            ".." ++ ((relProcess (0, []) (splitSlash cwd)).2 ++ ["a", "b.txt"]) ≠
            [] := by simp
        have hXjoin : joinPaths2 cwd "a/b.txt" =
            joinSlash (List.replicate (relProcess (0, []) (splitSlash cwd)).1
              ".." ++ ((relProcess (0, []) (splitSlash cwd)).2 ++
                ["a", "b.txt"])) := by
          rw [hJP]
          unfold normalizePathJs
          rw [habsj, habs]
          simp only [Bool.false_eq_true, if_false, reduceIte, hXrel]
          exact renderRel_eq_join _ _ hsegs_ne
        obtain ⟨hne2, habs2⟩ := joinSlash_dots_facts
          (relProcess (0, []) (splitSlash cwd)).1
          (relProcess (0, []) (splitSlash cwd)).2 hstkg
        have hXsplit : splitSlash (joinPaths2 cwd "a/b.txt") =
            List.replicate (relProcess (0, []) (splitSlash cwd)).1 ".." ++
              ((relProcess (0, []) (splitSlash cwd)).2 ++ ["a", "b.txt"]) := by
          rw [hXjoin]
          refine splitSlash_joinSlash _ hsegs_ne ?_
          intro s hs
          rcases List.mem_append.mp hs with hs | hs
          · rw [List.eq_of_mem_replicate hs]
            decide
          · rcases List.mem_append.mp hs with hs | hs
            · exact (hstkg s hs).2
            · rcases List.mem_cons.mp hs with rfl | hs
              · decide
              · rcases List.mem_singleton.mp hs with rfl
                decide
        refine mrp_of_resolved procCwd _ cwd _ ?_ hCg ?_ ?_
        · rw [hXjoin]
          exact hne2
        · have hXabs : isAbs (joinPaths2 cwd "a/b.txt") = false := by
            rw [hXjoin]
            exact habs2
          rw [resolveSegs_of_rel procCwd _ hXabs, hXsplit]
          rw [show List.replicate (relProcess (0, []) (splitSlash cwd)).1 ".." ++
              ((relProcess (0, []) (splitSlash cwd)).2 ++ ["a", "b.txt"]) =
            (List.replicate (relProcess (0, []) (splitSlash cwd)).1 ".." ++
              (relProcess (0, []) (splitSlash cwd)).2) ++ ["a", "b.txt"] by
            simp [List.append_assoc]]
          rw [absProcess_append, absProcess_append, absProcess_dots,
            absProcess_pushes _ _ (fun x hx => (hstkg x hx).1),
            absProcess_pushes ["a", "b.txt"] _ normal_ab]
        · rw [if_neg hcwd, resolveSegs_of_rel procCwd cwd habs]
          exact absProcess_eq_rel (splitSlash cwd)
            (absProcess [] (splitSlash procCwd))
  · intro fp cwd hfpabs hfp hns
    exact mrp_far procCwd fp cwd _ _ hfp
      (resolveSegs_good procCwd _) (resolveSegs_good procCwd fp) rfl rfl hns

/-- Witness for C8 at `process.cwd() = "/home/u"`: the round trip for an
absolute, a relative, and an empty `cwd`, plus a far-away absolute path. -/
theorem c8_witness :
    makeRelativePath "/home/u" (some (joinPaths2 "/tmp/x" "a/b.txt"))
      (some "/tmp/x") = "a/b.txt" ∧
    makeRelativePath "/home/u" (some (joinPaths2 "rel/dir" "a/b.txt"))
      (some "rel/dir") = "a/b.txt" ∧
    makeRelativePath "/home/u" (some (joinPaths2 "" "a/b.txt"))
      (some "") = "a/b.txt" ∧
    (makeRelativePath "/home/u" (some "/etc/hosts") (some "/tmp/x") =
      joinSlash (relativeSegs
        (resolveSegs "/home/u" (if "/tmp/x" = "" then "/home/u" else "/tmp/x"))
        (resolveSegs "/home/u" "/etc/hosts")) ∧
    startsWithJs (makeRelativePath "/home/u" (some "/etc/hosts")
      (some "/tmp/x")) ".." = true) :=
  ⟨(c8_path_relativization "/home/u" (by decide)).1 "/tmp/x",
   (c8_path_relativization "/home/u" (by decide)).1 "rel/dir",
   (c8_path_relativization "/home/u" (by decide)).1 "",
   (c8_path_relativization "/home/u" (by decide)).2 "/etc/hosts" "/tmp/x"
     (by decide) (by decide) (by decide)⟩

/-- Witness for C3 (amended) at a concrete cancelled `Bash` result. -/
theorem c3_witness :
    (createToolResultSummary "/" (cancelledFlushCtx c3wCtx c3wRes)
      (extractResultContent (c3wRes.setIsError false)) c3wRes.tool_use_id =
      .ok "<b>Bash:</b> <code>echo hi</code>") ∧
    formatterStep "/" c3wCtx [] 0 c3wRecord =
      .ok (["**❌ User cancelled tool execution**", ""] ++
        (["<details><summary>" ++ "<b>Bash:</b> <code>echo hi</code>" ++ "</summary>", ""] ++
          formatToolContent "/" (cancelledFlushCtx c3wCtx c3wRes)
            (extractResultContent (c3wRes.setIsError false)) c3wRes.tool_use_id ++
          ["</details>", ""]),
        { c3wCtx with
            pendingToolResults := []
            pendingTools := []
            currentToolUseResult := none }) := by
  constructor
  · rfl
  · refine c3_amended_cancel_requeues "/" c3wCtx [] 0 c3wRecord c3wRes
      "<b>Bash:</b> <code>echo hi</code>" rfl rfl rfl rfl rfl rfl rfl rfl ?_ rfl rfl rfl
    intro tc h
    have h2 : some c3wToolCall = some tc := h
    injection h2 with h3
    subst h3
    exact ⟨by decide, by decide⟩

/-- Claim C5 (evaluation at the failing input): a session whose records all
parse, containing a `Bash` `tool_use` whose `input` lacks the `command`
field, makes the conversion throw while flushing that call's result —
`formatBashSummary` reads `.startsWith` off the missing command — and the
error propagates from `convertSession` carrying the offending record's
index and the record itself.  This contradicts the claim that conversion
never raises on malformed/incomplete record data. -/
theorem c5_bash_missing_command_throws :
    convertSession "/" initialCtx c5Session =
      .error (.atRecord 1 c5ResultRecord
        "TypeError: Cannot read properties of undefined (reading 'startsWith')") ∧
    formatBashSummary (some []) =
      .error "TypeError: Cannot read properties of undefined (reading 'startsWith')" :=
  ⟨rfl, rfl⟩

/-- Claim C7: a result of the `LS` tool — or of `Bash` with an `ls`/`LS`
command — whose string content exceeds 50 lines renders as one fenced
block holding only the first 50 lines followed by the literal
`... (<remaining> more lines)` marker (the marker element carries the
source's leading `\n`). -/
theorem c7_ls_truncation (procCwd : String) (ctx : Ctx) (content : String)
    (tid : Option String) (tc : ContentItem)
    (hlook : lookupToolCall ctx tid = some tc)
    (htool : tc.name = some "LS" ∨
      (tc.name = some "Bash" ∧
        ∃ cmd, inputGet tc.input "command" = some (.s cmd) ∧ matchLsStart cmd = true))
    (hlines : 50 < (splitNl content).length) :
    formatToolContent procCwd ctx content tid =
      ["```"] ++ (splitNl content).take 50 ++
        ["\n... (" ++ toString ((splitNl content).length - 50) ++ " more lines)",
         "```"] := by
  have hst : shouldTruncateLS (lookupToolCall ctx tid) = true := by
    rw [hlook]
    unfold shouldTruncateLS
    rcases htool with hls | ⟨hb, cmd, hc, hm⟩
    · simp [hls]
    · simp [hb, hc, hm]
  unfold formatToolContent
  simp only [hst, if_true]
  unfold formatTruncatedContent
  rw [if_pos hlines]

/-- Witness for C7: an `LS` result with 75 lines renders the first 50 lines
and a `25 more lines` marker. -/
theorem c7_witness :
    lookupToolCall c7Ctx (some "tls") = some c7ToolCall ∧
    50 < (splitNl c7Content).length ∧
    formatToolContent "/" c7Ctx c7Content (some "tls") =
      ["```"] ++ List.replicate 50 "entry.txt" ++
        ["\n... (25 more lines)", "```"] := by
  refine ⟨rfl, by decide, ?_⟩
  have h := c7_ls_truncation "/" c7Ctx c7Content (some "tls") c7ToolCall rfl
    (Or.inl rfl) (by decide)
  rw [h]
  rfl

theorem eatCount_some {p : Char → Bool} :
    ∀ {n : Nat} {cs r : List Char}, eatCount p n cs = some r →
      ∃ pre, cs = pre ++ r ∧ pre.length = n ∧ ∀ c ∈ pre, p c = true
  | 0, cs, r, h => by
    simp only [eatCount, Option.some.injEq] at h
    exact ⟨[], by simp [h], rfl, by simp⟩
  | n + 1, [], r, h => by simp [eatCount] at h
  | n + 1, c :: cs, r, h => by
    simp only [eatCount] at h
    by_cases hp : p c
    · rw [if_pos hp] at h
      obtain ⟨pre, h1, h2, h3⟩ := eatCount_some h
      refine ⟨c :: pre, by simp [h1], by simp [h2], ?_⟩
      intro x hx
      rcases List.mem_cons.mp hx with rfl | hx
      · exact hp
      · exact h3 x hx
    · rw [if_neg hp] at h
      exact Option.noConfusion h

theorem eatChar_some {c : Char} {l r : List Char} (h : eatChar c l = some r) :
    l = c :: r := by
  cases l with
  | nil => exact Option.noConfusion h
  | cons x t =>
    simp only [eatChar] at h
    by_cases hx : x = c
    · rw [if_pos hx] at h
      simp only [Option.some.injEq] at h
      rw [hx, h]
    · rw [if_neg hx] at h
      exact Option.noConfusion h

theorem iso_or_date_shape {s : String}
    (h : matchIsoStart s = true ∨ matchDateStart s = true) :
    ∃ pre rest, s.data = pre ++ '-' :: rest ∧ pre.length = 4 ∧
      ∀ c ∈ pre, Char.isDigit c = true := by
  have key : ∀ {k : List Char → Option Unit},
      (Option.bind (eatCount Char.isDigit 4 s.data)
        (fun r => Option.bind (eatChar '-' r) k)).isSome = true →
      ∃ pre rest, s.data = pre ++ '-' :: rest ∧ pre.length = 4 ∧
        ∀ c ∈ pre, Char.isDigit c = true := by
    intro k hk
    cases h1 : eatCount Char.isDigit 4 s.data with
    | none => rw [h1] at hk; exact Bool.noConfusion hk
    | some r =>
      rw [h1] at hk
      simp only [Option.some_bind] at hk
      cases h2 : eatChar '-' r with
      | none => rw [h2] at hk; exact Bool.noConfusion hk
      | some r2 =>
        obtain ⟨pre, hpre, hlen, hdig⟩ := eatCount_some h1
        exact ⟨pre, r2, by rw [hpre, eatChar_some h2], hlen, hdig⟩
  rcases h with h | h
  · unfold matchIsoStart at h
    exact key h
  · unfold matchDateStart at h
    exact key h

theorem digit_not_ws {c : Char} (h : c.isDigit = true) :
    c.isWhitespace = false := by
  by_contra hw
  rw [Bool.not_eq_false] at hw
  simp only [Char.isWhitespace, Bool.or_eq_true, decide_eq_true_eq] at hw
  rcases hw with ((rfl | rfl) | rfl) | rfl <;> exact Bool.noConfusion h

theorem dropWhile_all {p : Char → Bool} :
    ∀ {l : List Char}, (l.dropWhile p).all p = true → l.all p = true
  | [], _ => rfl
  | c :: t, h => by
    rw [List.dropWhile_cons] at h
    by_cases hc : p c
    · rw [if_pos hc] at h
      simp [List.all_cons, hc, dropWhile_all h]
    · rw [if_neg hc] at h
      exact h

theorem trimChars_nil {l : List Char} (h : trimChars l = []) :
    l.all Char.isWhitespace = true := by
  unfold trimChars at h
  rw [List.reverse_eq_nil_iff, List.dropWhile_eq_nil_iff] at h
  refine dropWhile_all ?_
  rw [List.all_eq_true]
  intro x hx
  exact h x (List.mem_reverse.mpr hx)

theorem jsTrim_ne_of_head_digit {s : String} {c : Char} {rest : List Char}
    (hd : s.data = c :: rest) (hdig : c.isDigit = true) : jsTrim s ≠ "" := by
  intro h
  have hnil : trimChars s.data = [] := congrArg String.data h
  have hall := trimChars_nil hnil
  rw [hd] at hall
  simp only [List.all_cons, Bool.and_eq_true] at hall
  rw [digit_not_ws hdig] at hall
  exact Bool.noConfusion hall.1

theorem digits_not_iso_date {s : String} (h : s.data.all Char.isDigit = true) :
    matchIsoStart s = false ∧ matchDateStart s = false := by
  have hmem : ∀ x ∈ s.data, Char.isDigit x = true := List.all_eq_true.mp h
  constructor
  · cases hI : matchIsoStart s with
    | false => rfl
    | true =>
      obtain ⟨pre, rest, hsh, _, _⟩ := iso_or_date_shape (Or.inl hI)
      have : Char.isDigit '-' = true := hmem '-' (by rw [hsh]; simp)
      exact Bool.noConfusion this
  · cases hD : matchDateStart s with
    | false => rfl
    | true =>
      obtain ⟨pre, rest, hsh, _, _⟩ := iso_or_date_shape (Or.inr hD)
      have : Char.isDigit '-' = true := hmem '-' (by rw [hsh]; simp)
      exact Bool.noConfusion this

theorem digits10_facts {s : String} (h : matchDigits10 s = true) :
    jsTrim s ≠ "" ∧ matchIsoStart s = false ∧ matchDateStart s = false := by
  simp only [matchDigits10, decide_eq_true_eq] at h
  obtain ⟨hlen, hall⟩ := h
  obtain ⟨c, rest, hd⟩ : ∃ c rest, s.data = c :: rest := by
    cases hdata : s.data with
    | nil => rw [hdata] at hlen; simp at hlen
    | cons c rest => exact ⟨c, rest, rfl⟩
  have hcd : c.isDigit = true := List.all_eq_true.mp hall c (by rw [hd]; simp)
  exact ⟨jsTrim_ne_of_head_digit hd hcd, digits_not_iso_date hall⟩

theorem digits13_facts {s : String} (h : matchDigits13 s = true) :
    jsTrim s ≠ "" ∧ matchIsoStart s = false ∧ matchDateStart s = false ∧
      matchDigits10 s = false := by
  simp only [matchDigits13, decide_eq_true_eq] at h
  obtain ⟨hlen, hall⟩ := h
  obtain ⟨c, rest, hd⟩ : ∃ c rest, s.data = c :: rest := by
    cases hdata : s.data with
    | nil => rw [hdata] at hlen; simp at hlen
    | cons c rest => exact ⟨c, rest, rfl⟩
  have hcd : c.isDigit = true := List.all_eq_true.mp hall c (by rw [hd]; simp)
  refine ⟨jsTrim_ne_of_head_digit hd hcd, (digits_not_iso_date hall).1,
    (digits_not_iso_date hall).2, ?_⟩
  simp only [matchDigits10, decide_eq_true_eq]
  simp [hlen]

theorem iso_date_trim_ne {s : String}
    (h : matchIsoStart s = true ∨ matchDateStart s = true) : jsTrim s ≠ "" := by
  obtain ⟨pre, rest, hsh, hlen, hdig⟩ := iso_or_date_shape h
  cases hpre : pre with
  | nil => rw [hpre] at hlen; exact absurd hlen (by simp)
  | cons c t =>
    have hd : s.data = c :: (t ++ '-' :: rest) := by rw [hsh, hpre]; simp
    have hcd : c.isDigit = true := hdig c (by rw [hpre]; simp)
    exact jsTrim_ne_of_head_digit hd hcd

/-- Claim C6: `isValidTimestamp` accepts exactly the non-blank, non-UUID
strings matching the ISO prefix, bare date, 10-digit, 13-digit, or
generic-parser cases; `parseTimestamp` (a total function) dispatches on the
same parsing cases — ISO/date go to the generic parser, 10 digits are Unix
seconds, 13 digits Unix milliseconds — and a string that fits no case maps
to the epoch sentinel `new Date(0)`. -/
theorem c6_timestamp_classification (jsParse : String → Option Int) (s : String) :
    (isValidTimestamp jsParse s = true ↔
      (jsTrim s ≠ "" ∧ matchUuid s = false ∧
        (matchIsoStart s = true ∨ matchDateStart s = true ∨
         matchDigits10 s = true ∨ matchDigits13 s = true ∨
         (jsParse s).isSome = true))) ∧
    ((matchIsoStart s = true ∨ matchDateStart s = true) →
      parseTimestamp jsParse s = jsParse s) ∧
    (matchDigits10 s = true →
      parseTimestamp jsParse s = some (parseIntDec s * 1000)) ∧
    (matchDigits13 s = true → parseTimestamp jsParse s = some (parseIntDec s)) ∧
    (jsTrim s = "" → parseTimestamp jsParse s = some 0) ∧
    (matchIsoStart s = false → matchDateStart s = false →
      matchDigits10 s = false → matchDigits13 s = false → jsParse s = none →
      parseTimestamp jsParse s = some 0) := by
  refine ⟨?_, ?_, ?_, ?_, ?_, ?_⟩
  · unfold isValidTimestamp
    split_ifs with h1 h2 h3 h4 h5 <;> simp_all <;> tauto
  · intro h
    have htrim := iso_date_trim_ne h
    unfold parseTimestamp
    rw [if_neg htrim]
    by_cases hiso : matchIsoStart s = true
    · rw [if_pos hiso]
    · rcases h with h | h
      · exact absurd h hiso
      · rw [if_neg hiso, if_pos h]
  · intro h
    obtain ⟨htrim, hiso, hdate⟩ := digits10_facts h
    unfold parseTimestamp
    rw [if_neg htrim, if_neg (by rw [hiso]; exact Bool.noConfusion),
      if_neg (by rw [hdate]; exact Bool.noConfusion), if_pos h]
  · intro h
    obtain ⟨htrim, hiso, hdate, h10⟩ := digits13_facts h
    unfold parseTimestamp
    rw [if_neg htrim, if_neg (by rw [hiso]; exact Bool.noConfusion),
      if_neg (by rw [hdate]; exact Bool.noConfusion),
      if_neg (by rw [h10]; exact Bool.noConfusion), if_pos h]
  · intro h
    unfold parseTimestamp
    rw [if_pos h]
  · intro hiso hdate h10 h13 hjp
    unfold parseTimestamp
    by_cases htrim : jsTrim s = ""
    · rw [if_pos htrim]
    · rw [if_neg htrim, if_neg (by rw [hiso]; exact Bool.noConfusion),
        if_neg (by rw [hdate]; exact Bool.noConfusion),
        if_neg (by rw [h10]; exact Bool.noConfusion),
        if_neg (by rw [h13]; exact Bool.noConfusion), hjp]

/-- Witness for C6 at a 10-digit Unix-seconds string (with a generic parser
that fails everywhere). -/
theorem c6_witness :
    matchDigits10 "1704110445" = true ∧
    parseTimestamp (fun _ => none) "1704110445" =
      some (parseIntDec "1704110445" * 1000) ∧
    isValidTimestamp (fun _ => none) "1704110445" = true := by
  refine ⟨by decide, ?_, by decide⟩
  exact (c6_timestamp_classification (fun _ => none) "1704110445").2.2.1 (by decide)

/-- Witness for C10 at a concrete context and two pending results. -/
theorem c10_witness :
    (c10Ctx.currentToolUseResult.bind (fun t => t.structuredPatch) =
      some [{ lines := ["-old line", "+new line"] }]) ∧
    formatToolResults "/" c10Ctx c10Items =
      .ok ((List.replicate c10Items.length (formatStructuredPatch "/" c10Ctx)).flatten) :=
  ⟨rfl, (c10_patch_branch_ignores_items "/" c10Ctx c10Items
    [{ lines := ["-old line", "+new line"] }] rfl).1⟩

end SessionToMd
